import Mathlib

/-!
Verification development for the Pixlato palette/quantization engine
(pixel_crafter_gui/core/palette.py and core/processor.py).

Shallow embedding conventions:
* 8-bit channels are natural numbers; images are row-major pixel lists.
* Python/NumPy floating point arithmetic is embedded as exact arithmetic:
  rationals where the code only adds/multiplies/divides, reals where the
  sRGB gamma power 2.4 and the LAB cube root are involved.
* External collaborators (Pillow quantize/enhance/resize, OpenCV bilateral
  filter) are not part of this repository; they enter as parameters of the
  embedded pipeline (structure Ext below).
-/

set_option autoImplicit false

namespace Pixlato

/-- An 8-bit RGB color (r, g, b): each channel a natural number, valid when in 0..255. -/
abbrev Color := ℕ × ℕ × ℕ

/-- An RGBA pixel: an RGB color together with an alpha channel. -/
abbrev Pixel := Color × ℕ

/-- A CIE LAB color (L, a, b) with real-valued components. -/
abbrev Lab := ℝ × ℝ × ℝ

/-- A color is valid when all channels are at most 255 (they are naturals, so 0 ≤ holds). -/
def validColor (c : Color) : Prop := c.1 ≤ 255 ∧ c.2.1 ≤ 255 ∧ c.2.2 ≤ 255

instance validColor_decidable (c : Color) : Decidable (validColor c) := by
  unfold validColor; infer_instance

/-- RGBA image buffer: height, width, and the row-major pixel list. -/
structure Img where
  ih : ℕ
  iw : ℕ
  px : List Pixel
deriving DecidableEq

/-- RGB image buffer (alpha already split off), as handed to the extractors. -/
structure RgbImg where
  ih : ℕ
  iw : ℕ
  px : List Color
deriving DecidableEq

/-- External collaborators called by palette.py but implemented outside this
repository (Pillow and OpenCV): the bilateral pre-filter, the contrast
pre-boost `ImageEnhance.Contrast(...).enhance(1.15)`, the saturation boost
`ImageEnhance.Color(...).enhance(1.2)`, Pillow `Image.quantize` against a fixed
palette with a dither flag, the grayscale branch `convert("L").quantize(...)`,
and the LANCZOS analysis resize.  They are parameters of the embedding. -/
structure Ext where
  bilateral : List Color → List Color
  preContrast : List Color → List Color
  boost : List Color → List Color
  pillowQuantize : List Color → List Color → Bool → List Color
  grayQuant : List Color → ℤ → Bool → List Color
  resizeAnalysis : RgbImg → RgbImg

/-- Identity instantiation of the external collaborators, used for witnesses. -/
def idExt : Ext :=
  ⟨id, id, id, fun px _ _ => px, fun px _ _ => px, id⟩

/-- sRGB inverse gamma (palette.py lines 11-14), applied to a channel value
already normalized by 255: linear segment below 0.04045, power 2.4 above. -/
noncomputable def srgb_linear (c : ℝ) : ℝ :=
  if c > 0.04045 then ((c + 0.055) / 1.055) ^ (2.4 : ℝ) else c / 12.92

/-- CIE f(t) nonlinearity (palette.py lines 30-35): cube root above the
threshold 0.008856, affine below. -/
noncomputable def lab_f (t : ℝ) : ℝ :=
  if t > 0.008856 then t ^ ((1 : ℝ) / 3) else 7.787 * t + 16 / 116

/-- rgb_to_lab of palette.py on a single sample whose channels are reals on the
0-255 scale (the function is vectorized over arrays of such samples; per-sample
it is this computation).  The reference-white division for y is by 1.0 and is
left implicit. -/
noncomputable def rgb_to_lab_core (c : ℝ × ℝ × ℝ) : Lab :=
  let lr := srgb_linear (c.1 / 255)
  let lg := srgb_linear (c.2.1 / 255)
  let lb := srgb_linear (c.2.2 / 255)
  let x := (lr * 0.4124564 + lg * 0.3575761 + lb * 0.1804375) / 0.95047
  let y := lr * 0.2126729 + lg * 0.7151522 + lb * 0.0721750
  let z := (lr * 0.0193339 + lg * 0.1191920 + lb * 0.9503041) / 1.08883
  (116 * lab_f y - 16, 500 * (lab_f x - lab_f y), 200 * (lab_f y - lab_f z))

/-- rgb_to_lab on an 8-bit color. -/
noncomputable def rgb_to_lab (c : Color) : Lab :=
  rgb_to_lab_core ((c.1 : ℝ), (c.2.1 : ℝ), (c.2.2 : ℝ))

/-- Squared Euclidean distance in LAB space (np.sum(diffs**2)). -/
def lab_sq_dist (u v : Lab) : ℝ :=
  (u.1 - v.1) ^ 2 + (u.2.1 - v.2.1) ^ 2 + (u.2.2 - v.2.2) ^ 2

/-- Accumulator for the first-minimum index scan (np.argmin keeps the first
occurrence of the minimum: a later element replaces the best only when
strictly smaller). -/
def argmin_aux {α : Type} [LinearOrder α] : List α → ℕ → ℕ → α → ℕ
  | [], _, bi, _ => bi
  | d :: rest, i, bi, bd =>
    if d < bd then argmin_aux rest (i + 1) i d else argmin_aux rest (i + 1) bi bd

/-- Index of the first minimum of a list (np.argmin); 0 on the empty list. -/
def argmin_idx {α : Type} [LinearOrder α] : List α → ℕ
  | [] => 0
  | d :: rest => argmin_aux rest 1 0 d

/-- Accumulator for the first-maximum index scan (np.argmax keeps the first
occurrence of the maximum). -/
def argmax_aux {α : Type} [LinearOrder α] : List α → ℕ → ℕ → α → ℕ
  | [], _, bi, _ => bi
  | d :: rest, i, bi, bd =>
    if bd < d then argmax_aux rest (i + 1) i d else argmax_aux rest (i + 1) bi bd

/-- Index of the first maximum of a list (np.argmax); 0 on the empty list. -/
def argmax_idx {α : Type} [LinearOrder α] : List α → ℕ
  | [] => 0
  | d :: rest => argmax_aux rest 1 0 d

/-- map_to_palette_lab (palette.py lines 45-76): vectorized nearest-neighbor
in LAB space over the full palette color list, rebuilding the image from the
chosen palette entries.  The 100k-pixel chunking of the distance computation is
a memory-management detail with no semantic effect and is not represented. -/
noncomputable def map_to_palette_lab (rgb : List Color) (paletteColors : List Color) : List Color :=
  let palLab := paletteColors.map rgb_to_lab
  rgb.map (fun p =>
    let dists := palLab.map (fun q => lab_sq_dist (rgb_to_lab p) q)
    paletteColors.getD (argmin_idx dists) (0, 0, 0))

/-- The eight neighbor shifts of apply_stability_filter (palette.py lines 93-96),
in source order: N, S, E, W then the four diagonals. -/
def neighbor_shifts : List (ℤ × ℤ) :=
  [(-1, 0), (1, 0), (0, -1), (0, 1), (-1, -1), (-1, 1), (1, -1), (1, 1)]

/-- Pixel of a row-major buffer at cell (y, x). -/
def px_at (w : ℕ) (px : List Pixel) (y x : ℕ) : Pixel :=
  px.getD (y * w + x) ((0, 0, 0), 0)

/-- Value at cell (y, x) of the buffer np.rolled by (dy, dx): toroidal wrap,
rolled[y][x] = original[(y - dy) mod h][(x - dx) mod w]. -/
def shifted_at (h w : ℕ) (px : List Pixel) (s : ℤ × ℤ) (y x : ℕ) : Pixel :=
  px_at w px (((y : ℤ) - s.1) % (h : ℤ)).toNat (((x : ℤ) - s.2) % (w : ℤ)).toNat

/-- A pixel is isolated when its exact 32-bit RGBA value differs from all
eight toroidal neighbors (palette.py lines 105-109). -/
def isolated_at (h w : ℕ) (px : List Pixel) (y x : ℕ) : Bool :=
  neighbor_shifts.all (fun s => px_at w px y x != shifted_at h w px s y x)

/-- Early-exit test of the filter loop: no isolated pixel remains. -/
def no_isolated (h w : ℕ) (px : List Pixel) : Bool :=
  (List.range (h * w)).all (fun k => ! isolated_at h w px (k / w) (k % w))

/-- One pass of the stability filter: isolated pixels take the value of the
first shifted array (shift (-1, 0)), i.e. the vertically adjacent cell of the
unmodified buffer; all other pixels are unchanged (palette.py lines 113-115). -/
def stability_step (h w : ℕ) (px : List Pixel) : List Pixel :=
  (List.range (h * w)).map (fun k =>
    if isolated_at h w px (k / w) (k % w) then
      shifted_at h w px (-1, 0) (k / w) (k % w)
    else px_at w px (k / w) (k % w))

/-- The iteration loop of apply_stability_filter with the early break when no
isolated pixel remains. -/
def stability_iter (h w : ℕ) : List Pixel → ℕ → List Pixel
  | px, 0 => px
  | px, n + 1 =>
    if no_isolated h w px then px else stability_iter h w (stability_step h w px) n

/-- apply_stability_filter (palette.py lines 78-119): the input is converted to
RGBA (our buffers already are), filtered on packed RGBA equality for the given
iteration count, and returned as RGB (alpha dropped). -/
def apply_stability_filter (h w : ℕ) (px : List Pixel) (iterations : ℕ) : List Color :=
  (stability_iter h w px iterations).map (fun q => q.1)

/-- consolidate_palette inner loop (palette.py lines 150-160): keep a color
only when its plain Euclidean LAB distance to every already-kept color is not
below the threshold; kept denotes the LAB versions of the kept colors. -/
noncomputable def consolidate_go (threshold : ℝ) : List Lab → List Color → List Color
  | _, [] => []
  | kept, c :: rest =>
    if ∃ u ∈ kept, Real.sqrt (lab_sq_dist (rgb_to_lab c) u) < threshold then
      consolidate_go threshold kept rest
    else c :: consolidate_go threshold (kept ++ [rgb_to_lab c]) rest

/-- consolidate_palette (palette.py lines 137-162). -/
noncomputable def consolidate_palette (colors : List Color) (threshold : ℝ) : List Color :=
  if colors = [] then colors else consolidate_go threshold [] colors

/-- Analysis-resolution copy used by both extractors (palette.py lines 204-210
and 285-289): images larger than 256 in either dimension are resized by the
external LANCZOS resampler; smaller images are analyzed as-is. -/
def analysis_image (ext : Ext) (img : RgbImg) : RgbImg :=
  if 256 < max img.iw img.ih then ext.resizeAnalysis img else img

/-- A pixel normalized to the 0-1 range (arr.astype(np.float32) / 255.0). -/
def normPx (c : Color) : ℚ × ℚ × ℚ :=
  ((c.1 : ℚ) / 255, (c.2.1 : ℚ) / 255, (c.2.2 : ℚ) / 255)

/-- Channel maximum of a normalized pixel (the Value component). -/
def qmax3 (p : ℚ × ℚ × ℚ) : ℚ := max p.1 (max p.2.1 p.2.2)

/-- Channel minimum of a normalized pixel. -/
def qmin3 (p : ℚ × ℚ × ℚ) : ℚ := min p.1 (min p.2.1 p.2.2)

/-- Saturation score: max - min of the normalized channels (palette.py line 220). -/
def satOf (p : ℚ × ℚ × ℚ) : ℚ := qmax3 p - qmin3 p

/-- Contrast score: |value - 0.5| * 2 (palette.py line 226). -/
def contrastOf (p : ℚ × ℚ × ℚ) : ℚ := |qmax3 p - 1 / 2| * 2

/-- Simplified hue of palette.py lines 230-240.  The three mask assignments are
sequential, so where several channels tie for the maximum the later assignment
wins: blue over green over red.  diff carries the 1e-6 epsilon; the result is
taken modulo 1 after division by 6 (Python float mod, i.e. the fractional part). -/
def hueOf (p : ℚ × ℚ × ℚ) : ℚ :=
  let diff := satOf p + 1 / 1000000
  let raw :=
    if qmax3 p = p.2.2 then 4 + (p.1 - p.2.1) / diff
    else if qmax3 p = p.2.1 then 2 + (p.2.2 - p.1) / diff
    else if qmax3 p = p.1 then (p.2.1 - p.2.2) / diff
    else 0
  Int.fract (raw / 6)

/-- Hue histogram bucket: (h * 36) truncated to an integer and clipped to 0..35
(palette.py line 243); hues are in [0, 1) so truncation is the floor. -/
def bucketOf (hq : ℚ) : ℕ := min 35 (Int.toNat ⌊hq * 36⌋)

/-- Count of hues falling in bucket i: the 36-bin histogram over [0, 1) of
palette.py line 242 evaluated at bucket i. -/
def hueHist (hues : List ℚ) (i : ℕ) : ℕ :=
  hues.countP (fun x => bucketOf x = i)

/-- Importance scores of palette.py lines 242-247: rarity is the inverse
histogram count of the pixel hue bucket, normalized by the maximum rarity plus
1e-6; the final score combines saturation, contrast and rarity with the
caller-supplied weights. -/
noncomputable def aesthetic_scores (w_sat w_con w_rar : ℝ)
    (pixels : List (ℚ × ℚ × ℚ)) : List ℝ :=
  let hues := pixels.map hueOf
  let rawRar := hues.map (fun x => (1 : ℚ) / (hueHist hues (bucketOf x) + 1))
  let maxRar := rawRar.foldr max 0
  List.zipWith
    (fun p rr =>
      ((satOf p : ℝ)) * w_sat + ((contrastOf p : ℝ)) * w_con +
        (((rr / (maxRar + 1 / 1000000) : ℚ) : ℝ)) * w_rar)
    pixels rawRar

/-- Score update after a greedy pick (palette.py lines 269-274): every score is
multiplied by np.clip(sq_dist / 15^2, 0, 1) where sq_dist is the squared LAB
distance of the pixel to the picked color. -/
noncomputable def suppress_scores (scores : List ℝ) (labs : List Lab) (best : Lab) : List ℝ :=
  List.zipWith (fun s l => s * min (max (lab_sq_dist l best / (15 : ℝ) ^ 2) 0) 1) scores labs

/-- The greedy selection loop of palette.py lines 260-274: pick the index of the
highest remaining score, stop early when that score is ≤ 0, otherwise suppress
and continue; the fuel is the requested color count. -/
noncomputable def aesthetic_select (labs : List Lab) : ℕ → List ℝ → List ℕ → List ℕ
  | 0, _, acc => acc.reverse
  | n + 1, scores, acc =>
    let best := argmax_idx scores
    if scores.getD best 0 ≤ 0 then acc.reverse
    else aesthetic_select labs n
      (suppress_scores scores labs (labs.getD best ((0 : ℝ), (0 : ℝ), (0 : ℝ)))) (best :: acc)

/-- extract_aesthetic_palette (palette.py lines 199-277).  Note the faithful
double normalization: line 254 feeds the already 0-1-normalized pixels to
rgb_to_lab, which divides by 255 again, so the suppression LAB values come from
channel values at most 1/255.  A negative or zero color count gives an empty
selection loop (range(color_count)).  The final entries denormalize with
int(p * 255), a truncation. -/
noncomputable def extract_aesthetic_palette (ext : Ext) (img : RgbImg) (color_count : ℤ)
    (w_sat w_con w_rar : ℝ) : List Color :=
  let a := analysis_image ext img
  let pixels := a.px.map normPx
  let labs := pixels.map (fun p => rgb_to_lab_core ((p.1 : ℝ), (p.2.1 : ℝ), (p.2.2 : ℝ)))
  let scores := aesthetic_scores w_sat w_con w_rar pixels
  let selected := aesthetic_select labs color_count.toNat scores []
  selected.map (fun i =>
    let p := pixels.getD i (0, 0, 0)
    (Int.toNat ⌊p.1 * 255⌋, Int.toNat ⌊p.2.1 * 255⌋, Int.toNat ⌊p.2.2 * 255⌋))

/-- The nine gamut anchor candidates of palette.py lines 295-311, in source
order: min/max of each channel, min/max channel sum, then max saturation;
np.argmin and np.argmax take the first occurrence. -/
def extreme_points (pxs : List Color) : List Color :=
  [pxs.getD (argmin_idx (pxs.map (fun c => c.1))) (0, 0, 0),
   pxs.getD (argmax_idx (pxs.map (fun c => c.1))) (0, 0, 0),
   pxs.getD (argmin_idx (pxs.map (fun c => c.2.1))) (0, 0, 0),
   pxs.getD (argmax_idx (pxs.map (fun c => c.2.1))) (0, 0, 0),
   pxs.getD (argmin_idx (pxs.map (fun c => c.2.2))) (0, 0, 0),
   pxs.getD (argmax_idx (pxs.map (fun c => c.2.2))) (0, 0, 0),
   pxs.getD (argmin_idx (pxs.map (fun c => c.1 + c.2.1 + c.2.2))) (0, 0, 0),
   pxs.getD (argmax_idx (pxs.map (fun c => c.1 + c.2.1 + c.2.2))) (0, 0, 0),
   pxs.getD (argmax_idx (pxs.map (fun c =>
     max c.1 (max c.2.1 c.2.2) - min c.1 (min c.2.1 c.2.2)))) (0, 0, 0)]

/-- Exact-match deduplication of the extremes, keeping first occurrences
(palette.py lines 314-317). -/
def dedup_extremes (l : List Color) : List Color :=
  l.foldl (fun acc e => if e ∈ acc then acc else acc ++ [e]) []

/-- Python list slicing l[:n] including the negative-index convention
(n < 0 keeps all but the last |n| elements). -/
def py_take {α : Type} (n : ℤ) (l : List α) : List α :=
  if 0 ≤ n then l.take n.toNat else l.take ((l.length : ℤ) + n).toNat

/-- Voxel bin of a channel value in the 16x16x16 RGB histogram over the range
0..255 (np.histogramdd bin edges at 255k/16; the right edge of the last bin is
inclusive, giving min 15 (16v/255)). -/
def voxel_bin (v : ℕ) : ℕ := min 15 (v * 16 / 255)

/-- Number of pixels falling in voxel t. -/
def voxel_count (pxs : List Color) (t : ℕ × ℕ × ℕ) : ℕ :=
  pxs.countP (fun c =>
    voxel_bin c.1 = t.1 ∧ voxel_bin c.2.1 = t.2.1 ∧ voxel_bin c.2.2 = t.2.2)

/-- Non-empty voxels in np.argwhere row-major order. -/
def voxel_coords (pxs : List Color) : List (ℕ × ℕ × ℕ) :=
  ((List.range 16).flatMap (fun i =>
    (List.range 16).flatMap (fun j =>
      (List.range 16).map (fun k => (i, j, k))))).filter
    (fun t => 0 < voxel_count pxs t)

/-- Stable descending insertion by key.  The source sorts candidate voxels with
np.argsort(-densities), an unstable introsort whose order among equal densities
is unspecified; the embedding fixes a stable descending order.  No verified
claim depends on the tie order. -/
def insert_desc {α : Type} (key : α → ℕ) (x : α) : List α → List α
  | [] => [x]
  | y :: ys => if key y < key x then x :: y :: ys else y :: insert_desc key x ys

/-- Stable descending sort by key (see insert_desc). -/
def sort_desc {α : Type} (key : α → ℕ) : List α → List α
  | [] => []
  | x :: xs => insert_desc key x (sort_desc key xs)

/-- Candidate colors of palette.py lines 325-338: non-empty voxels sorted by
descending density, each converted to its voxel center (coord * 16 + 8, exact
integers). -/
def voxel_candidates (pxs : List Color) : List Color :=
  (sort_desc (voxel_count pxs) (voxel_coords pxs)).map
    (fun t => (t.1 * 16 + 8, t.2.1 * 16 + 8, t.2.2 * 16 + 8))

/-- The diversity fill loop of palette.py lines 346-355: stop once the palette
has reached the requested count, otherwise admit a candidate only when its
squared LAB distance to every already-picked color exceeds 20^2. -/
noncomputable def geometric_fill (color_count : ℤ) : List Color → List Color → List Color
  | pal, [] => pal
  | pal, cand :: rest =>
    if color_count ≤ (pal.length : ℤ) then pal
    else if ∀ u ∈ pal, (20 : ℝ) ^ 2 < lab_sq_dist (rgb_to_lab u) (rgb_to_lab cand) then
      geometric_fill color_count (pal ++ [cand]) rest
    else geometric_fill color_count pal rest

/-- extract_geometric_palette (palette.py lines 279-357): deduplicated gamut
anchors, Python-sliced to color_count // 2 (floor division, negative-slice
convention included), then the density fill.  The final tuple(map(int, c)) is
the identity on the integer-valued colors produced here. -/
noncomputable def extract_geometric_palette (ext : Ext) (img : RgbImg)
    (color_count : ℤ) : List Color :=
  let a := analysis_image ext img
  let pal0 := py_take (color_count.fdiv 2) (dedup_extremes (extreme_points a.px))
  geometric_fill color_count pal0 (voxel_candidates a.px)

/-- The GameBoy preset palette (palette.py line 475). -/
def gameboy_colors : List Color := [(15, 56, 15), (48, 98, 48), (139, 172, 15), (155, 188, 15)]

/-- The CGA preset palette (palette.py line 476). -/
def cga_colors : List Color := [(0, 0, 0), (85, 255, 255), (255, 85, 255), (255, 255, 255)]

/-- The Pico-8 preset palette (palette.py lines 477-482). -/
def pico8_colors : List Color :=
  [(0, 0, 0), (29, 43, 83), (126, 37, 83), (0, 135, 81),
   (171, 82, 54), (95, 87, 79), (194, 195, 199), (255, 241, 232),
   (255, 0, 77), (255, 163, 0), (255, 236, 39), (0, 228, 54),
   (41, 173, 255), (131, 118, 156), (255, 119, 168), (255, 204, 170)]

/-- Palette padding to 256 slots: putpalette receives the flat color list
padded with zero bytes to 768 entries, so every unused slot holds (0, 0, 0)
(palette.py lines 407-412 and 520-531).  A P-mode image always carries 256
entries.  Lists longer than 256 never occur on the verified paths (putpalette
would raise). -/
def pad256 (l : List Color) : List Color :=
  (l ++ List.replicate (256 - l.length) ((0, 0, 0) : Color)).take 256

/-- Python truthiness of the dynamically typed custom_colors argument
(None, an int, or a list of colors). -/
def custom_truthy : Option (ℤ ⊕ List Color) → Bool
  | none => false
  | some (Sum.inl n) => n != 0
  | some (Sum.inr l) => !l.isEmpty

/-- The pattern `custom_colors if isinstance(custom_colors, int) else d`. -/
def custom_int (d : ℤ) : Option (ℤ ⊕ List Color) → ℤ
  | some (Sum.inl n) => n
  | _ => d

/-- The color list carried by custom_colors, empty otherwise.  A truthy integer
reaching the Custom_User branch would raise a TypeError later in the source
when the flat palette is built; that degenerate path is modelled as the empty
list, which likewise yields no target palette. -/
def custom_list : Option (ℤ ⊕ List Color) → List Color
  | some (Sum.inr l) => l
  | _ => []

/-- The N-step grayscale ramp np.linspace(0, 255, steps, dtype=int): float
linspace truncated to integers, i.e. 255 * i / (steps - 1) in integer division
(exact for these magnitudes). -/
def gray_steps (steps : ℕ) : List Color :=
  (List.range steps).map (fun i => ((255 * i) / (steps - 1), (255 * i) / (steps - 1),
    (255 * i) / (steps - 1)))

/-- _generate_target_palette (palette.py lines 464-533): preset lookup, the
truthiness-guarded Custom_User branch, the Grayscale ramp with steps clamped to
at least 2, early None returns for Custom_16bit and Limited, the final
empty-colors check, and zero-padding of the palette image to 256 slots.
is_low_color is length ≤ 4 in every populated branch (for Grayscale the length
equals the clamped step count). -/
def generate_target_palette (paletteName : String) (custom : Option (ℤ ⊕ List Color)) :
    Option (List Color) × Bool :=
  let colors : List Color :=
    if paletteName = "GameBoy" then gameboy_colors
    else if paletteName = "CGA" then cga_colors
    else if paletteName = "Pico-8" then pico8_colors
    else if paletteName = "Custom_User" ∧ custom_truthy custom = true then custom_list custom
    else if paletteName = "Grayscale" then gray_steps (max 2 (custom_int 4 custom)).toNat
    else []
  if colors = [] then (none, false)
  else (some (pad256 colors), decide (colors.length ≤ 4))

/-- apply_palette_unified (palette.py lines 369-462).  The input is an RGBA
buffer; "Original" returns it unchanged before any other step.  External
Pillow/OpenCV calls go through ext.  The Grayscale elif on line 453 is kept
although _generate_target_palette already produces a palette for "Grayscale",
exactly as in the source (the branch is unreachable there too). -/
noncomputable def apply_palette_unified (ext : Ext) (img : Img) (paletteName : String)
    (customColors : Option (ℤ ⊕ List Color)) (dither : Bool)
    (extractPolicy mappingPolicy : String) (w_sat w_con w_rar : ℝ)
    (autoOptimal : Bool) : Img :=
  if paletteName = "Original" then img
  else
    let alphaMask := img.px.map (fun p => p.2)
    let rgb0 := img.px.map (fun p => p.1)
    let rgb1 := if autoOptimal then ext.bilateral rgb0 else rgb0
    let tp : Option (List Color) × Bool :=
      if paletteName = "Limited" then
        let cnt := custom_int 16 customColors
        let colors :=
          if autoOptimal then
            consolidate_palette (extract_geometric_palette ext ⟨img.ih, img.iw, rgb1⟩ 64) 6.0
          else if extractPolicy = "Aesthetic" then
            extract_aesthetic_palette ext ⟨img.ih, img.iw, rgb1⟩ cnt w_sat w_con w_rar
          else extract_geometric_palette ext ⟨img.ih, img.iw, rgb1⟩ cnt
        (some (pad256 colors), decide (colors.length ≤ 4))
      else generate_target_palette paletteName customColors
    let rgb2 := if dither = true ∧ tp.2 = true then ext.preContrast rgb1 else rgb1
    match tp.1 with
    | some pal =>
      let mapped :=
        if autoOptimal = true ∨ mappingPolicy = "Perceptual" then
          if dither = false then map_to_palette_lab rgb2 pal
          else ext.pillowQuantize (ext.boost rgb2) pal dither
        else ext.pillowQuantize rgb2 pal dither
      let cleaned :=
        if dither = false then
          apply_stability_filter img.ih img.iw (mapped.map (fun c => (c, 255)))
            (if autoOptimal = true then 3 else 1)
        else mapped
      ⟨img.ih, img.iw, cleaned.zip alphaMask⟩
    | none =>
      if paletteName = "Custom_16bit" then
        ⟨img.ih, img.iw,
          (rgb2.map (fun c => (c.1 / 16 * 17, c.2.1 / 16 * 17, c.2.2 / 16 * 17))).zip alphaMask⟩
      else if paletteName = "Grayscale" then
        ⟨img.ih, img.iw, (ext.grayQuant rgb2 (custom_int 256 customColors) dither).zip alphaMask⟩
      else ⟨img.ih, img.iw, rgb2.zip alphaMask⟩

/-- Modelled from the spec: the Perceptual policy "boosts the source image's
saturation by a fixed factor (1.2x)" through Pillow ImageEnhance.Color, which
is external to this repository.  Model of one pixel: blend between the ITU-R
601-2 grayscale value and the pixel with factor 6/5 (out = gray +
(6/5)(c - gray) = (6c - gray)/5), rounding half up and clipping to 0..255. -/
def spec_saturation_boost_px (c : Color) : Color :=
  let gray : ℤ := (299 * (c.1 : ℤ) + 587 * (c.2.1 : ℤ) + 114 * (c.2.2 : ℤ) + 500) / 1000
  let ch := fun (v : ℕ) => (max 0 (min 255 ((2 * (6 * (v : ℤ) - gray) + 5).fdiv 10))).toNat
  (ch c.1, ch c.2.1, ch c.2.2)

/-- Modelled from the spec: the image-level 1.2x saturation boost. -/
def spec_saturation_boost (px : List Color) : List Color :=
  px.map spec_saturation_boost_px

/-- Per-block pixel list of downsample_kmeans_adaptive (processor.py lines
152-160): the image is cropped to out_h * ps rows and out_w * ps columns and
reshaped into ps x ps blocks; block (bi, bj) collects its pixels row-major.
The crop is implicit: only indices inside the cropped region are read. -/
def block_pixels (img : Img) (ps bi bj : ℕ) : List Pixel :=
  (List.range ps).flatMap (fun i =>
    (List.range ps).map (fun j =>
      img.px.getD ((bi * ps + i) * img.iw + (bj * ps + j)) ((0, 0, 0), 0)))

/-- RGB channels of a pixel as rationals. -/
def rgbq (p : Pixel) : ℚ × ℚ × ℚ := ((p.1.1 : ℚ), (p.1.2.1 : ℚ), (p.1.2.2 : ℚ))

/-- Mean of a rational list (sum / length; 0 for the empty list). -/
def qmean (l : List ℚ) : ℚ := l.sum / (l.length : ℚ)

/-- torch.var with the default unbiased correction: sum of squared deviations
over n - 1.  A single-sample block gives NaN in torch and NaN > threshold is
false; the model returns 0, which fails the threshold test the same way. -/
def qvar (l : List ℚ) : ℚ :=
  if l.length ≤ 1 then 0
  else (l.map (fun x => (x - qmean l) ^ 2)).sum / ((l.length : ℚ) - 1)

/-- Squared Euclidean distance of rational RGB triples. -/
def sqd3 (u v : ℚ × ℚ × ℚ) : ℚ :=
  (u.1 - v.1) ^ 2 + (u.2.1 - v.2.1) ^ 2 + (u.2.2 - v.2.2) ^ 2

/-- Rec. 601 luminance used to seed the two cluster centers (processor.py line 182). -/
def lum601 (p : ℚ × ℚ × ℚ) : ℚ := 0.299 * p.1 + 0.587 * p.2.1 + 0.114 * p.2.2

/-- Componentwise sum of rational RGB triples. -/
def v3sum (l : List (ℚ × ℚ × ℚ)) : ℚ × ℚ × ℚ :=
  l.foldr (fun u v => (u.1 + v.1, u.2.1 + v.2.1, u.2.2 + v.2.2)) (0, 0, 0)

/-- One K-means update (processor.py lines 193-205): assign each point to the
nearer center (torch cdist + argmin, first index on ties, so center 0 wins
ties), then recompute each center as the assigned sum over the assigned count
clamped to at least 1 (an empty cluster therefore collapses to (0,0,0)/1).
Comparisons use squared distances, equivalent to comparing cdist norms. -/
def kmeans_update (pts : List (ℚ × ℚ × ℚ)) (c0 c1 : ℚ × ℚ × ℚ) :
    (ℚ × ℚ × ℚ) × (ℚ × ℚ × ℚ) :=
  let pts0 := pts.filter (fun p => sqd3 p c0 ≤ sqd3 p c1)
  let pts1 := pts.filter (fun p => ¬ sqd3 p c0 ≤ sqd3 p c1)
  let s0 := v3sum pts0
  let s1 := v3sum pts1
  let n0 : ℚ := max 1 (pts0.length : ℚ)
  let n1 : ℚ := max 1 (pts1.length : ℚ)
  ((s0.1 / n0, s0.2.1 / n0, s0.2.2 / n0), (s1.1 / n1, s1.2.1 / n1, s1.2.2 / n1))

/-- The fixed 4-iteration K-means loop (processor.py lines 192-205). -/
def kmeans_iter (pts : List (ℚ × ℚ × ℚ)) :
    ℕ → (ℚ × ℚ × ℚ) × (ℚ × ℚ × ℚ) → (ℚ × ℚ × ℚ) × (ℚ × ℚ × ℚ)
  | 0, cs => cs
  | n + 1, cs => kmeans_iter pts n (kmeans_update pts cs.1 cs.2)

/-- The high-variance block branch (processor.py lines 178-213): centers seeded
at the darkest and brightest pixel by luminance (argmin/argmax, first index),
4 K-means iterations, then the center farther from the block mean is emitted
(torch argmax over the two norms; the first center wins ties, and comparing
squared distances is equivalent). -/
def kmeans2 (pts : List (ℚ × ℚ × ℚ)) : ℚ × ℚ × ℚ :=
  let lums := pts.map lum601
  let c0 := pts.getD (argmin_idx lums) (0, 0, 0)
  let c1 := pts.getD (argmax_idx lums) (0, 0, 0)
  let cs := kmeans_iter pts 4 (c0, c1)
  let m : ℚ × ℚ × ℚ :=
    (qmean (pts.map (fun p => p.1)), qmean (pts.map (fun p => p.2.1)),
      qmean (pts.map (fun p => p.2.2)))
  if sqd3 cs.1 m < sqd3 cs.2 m then cs.2 else cs.1

/-- torch .byte() on the nonnegative in-range floats produced here: truncation
to the integer part. -/
def toByte (q : ℚ) : ℕ := (⌊q⌋).toNat

/-- downsample_kmeans_adaptive (processor.py lines 135-220), CPU semantics of
the tensor program: per block, the unbiased RGB variance sum selects between
the plain channel mean and the contrast-preserving 2-means branch; alpha is
always block-averaged; output pixels are byte casts of the exact values.  The
torch-missing fallback (Image.BOX resize) is not modelled: the spec fixes the
adaptive algorithm itself. -/
def downsample_kmeans_adaptive (img : Img) (pixel_size out_w out_h : ℕ) : Img :=
  ⟨out_h, out_w, (List.range (out_h * out_w)).map (fun k =>
    let blk := block_pixels img pixel_size (k / out_w) (k % out_w)
    let pts := blk.map rgbq
    let variance := qvar (pts.map (fun p => p.1)) + qvar (pts.map (fun p => p.2.1)) +
      qvar (pts.map (fun p => p.2.2))
    let meanc : ℚ × ℚ × ℚ :=
      (qmean (pts.map (fun p => p.1)), qmean (pts.map (fun p => p.2.1)),
        qmean (pts.map (fun p => p.2.2)))
    let rgbc := if (40 : ℚ) * 3 < variance then kmeans2 pts else meanc
    let alpha := qmean (blk.map (fun p => (p.2 : ℚ)))
    ((toByte rgbc.1, toByte rgbc.2.1, toByte rgbc.2.2), toByte alpha))⟩

/-- The palette names recognized by the pipeline dispatch (spec section 7,
policy errors): the Original early return, the three presets, Custom_User,
Grayscale, Custom_16bit and Limited. -/
def recognized_palette_names : List String :=
  ["Original", "GameBoy", "CGA", "Pico-8", "Custom_User", "Grayscale", "Custom_16bit", "Limited"]

/-- A 1 x 2 pure-gray gradient test image: black to white, opaque. -/
def c1_img : Img := ⟨1, 2, [(((0, 0, 0) : Color), 255), (((255, 255, 255) : Color), 255)]⟩

/-- A 1 x 1 test image holding the near-black reddish pixel (8, 0, 0). -/
def c4_img : Img := ⟨1, 1, [(((8, 0, 0) : Color), 255)]⟩

/-- A two-entry near-black custom palette separating (8,0,0) from (9,0,0). -/
def c4_colors : List Color := [(8, 0, 0), (9, 0, 0)]

/-- External collaborators with the saturation boost instantiated by the
spec-modelled 1.2x boost. -/
def ext4 : Ext := { idExt with boost := spec_saturation_boost }

/-- A 1 x 1 single-pixel RGB test image. -/
def c6_img : RgbImg := ⟨1, 1, [((5, 5, 5) : Color)]⟩

/- ------------------------------------------------------------------ -/
/- Helper lemmas.                                                      -/
/- ------------------------------------------------------------------ -/

theorem list_getD_mem {α : Type} (l : List α) (n : ℕ) (d : α) (h : n < l.length) :
    l.getD n d ∈ l := by
  rw [List.getD_eq_getElem?_getD, List.getElem?_eq_getElem h]
  exact List.getElem_mem h

theorem list_zip_fst_snd {α β : Type} (l : List (α × β)) :
    (l.map Prod.fst).zip (l.map Prod.snd) = l := by
  induction l with
  | nil => rfl
  | cons p rest ih => simp [List.zip, ih]

theorem lab_sq_dist_nonneg (u v : Lab) : 0 ≤ lab_sq_dist u v := by
  unfold lab_sq_dist; positivity

theorem lab_sq_dist_self (u : Lab) : lab_sq_dist u u = 0 := by
  unfold lab_sq_dist; ring

/-- Scanning with a best value below or equal to everything never moves. -/
theorem argmin_aux_keep {α : Type} [LinearOrder α] (l : List α) :
    ∀ (i bi : ℕ) (bd : α), (∀ x ∈ l, bd ≤ x) → argmin_aux l i bi bd = bi := by
  induction l with
  | nil => intro i bi bd _; rfl
  | cons d rest ih =>
    intro i bi bd hb
    have hd : bd ≤ d := hb d (List.mem_cons_self d rest)
    rw [argmin_aux, if_neg (not_lt.mpr hd)]
    exact ih (i + 1) bi bd (fun x hx => hb x (List.mem_cons_of_mem d hx))

/-- With a positive running best, positive entries before a zero entry and
nonnegative entries after it, the scan lands on the zero entry. -/
theorem argmin_aux_pos_zero (l1 rest : List ℝ) :
    ∀ (i bi : ℕ) (bd : ℝ), 0 < bd → (∀ x ∈ l1, 0 < x) → (∀ x ∈ rest, 0 ≤ x) →
      argmin_aux (l1 ++ (0 : ℝ) :: rest) i bi bd = i + l1.length := by
  induction l1 with
  | nil =>
    intro i bi bd hbd _ h2
    rw [List.nil_append, argmin_aux, if_pos hbd]
    simpa using argmin_aux_keep rest (i + 1) i 0 h2
  | cons d l ih =>
    intro i bi bd hbd h1 h2
    have hd : 0 < d := h1 d (List.mem_cons_self d l)
    by_cases hlt : d < bd
    · rw [List.cons_append, argmin_aux, if_pos hlt,
        ih (i + 1) i d hd (fun x hx => h1 x (List.mem_cons_of_mem d hx)) h2]
      simp [List.length_cons]; ring
    · rw [List.cons_append, argmin_aux, if_neg hlt,
        ih (i + 1) bi bd hbd (fun x hx => h1 x (List.mem_cons_of_mem d hx)) h2]
      simp [List.length_cons]; ring

/-- np.argmin returns 0 when the head is a zero lower bound of the list. -/
theorem argmin_idx_head_zero (rest : List ℝ) (h : ∀ x ∈ rest, 0 ≤ x) :
    argmin_idx ((0 : ℝ) :: rest) = 0 := by
  rw [argmin_idx]
  exact argmin_aux_keep rest 1 0 0 h

/-- np.argmin over positive entries followed by a zero entry and nonnegative
entries lands on the zero entry. -/
theorem argmin_idx_first_zero (l1 rest : List ℝ) (hne : l1 ≠ [])
    (h1 : ∀ x ∈ l1, 0 < x) (h2 : ∀ x ∈ rest, 0 ≤ x) :
    argmin_idx (l1 ++ (0 : ℝ) :: rest) = l1.length := by
  cases l1 with
  | nil => exact absurd rfl hne
  | cons d l =>
    rw [List.cons_append, argmin_idx,
      argmin_aux_pos_zero l rest 1 0 d (h1 d (List.mem_cons_self d l))
        (fun x hx => h1 x (List.mem_cons_of_mem d hx)) h2]
    simp [List.length_cons]; ring

/-- The scan of argmax_aux only produces the running best or an in-range index. -/
theorem argmax_aux_lt {α : Type} [LinearOrder α] (l : List α) :
    ∀ (i bi : ℕ) (bd : α), bi < i → argmax_aux l i bi bd < i + l.length := by
  induction l with
  | nil => intro i bi bd h; simpa [argmax_aux] using lt_of_lt_of_le h (Nat.le_refl i)
  | cons d rest ih =>
    intro i bi bd h
    rw [argmax_aux]
    by_cases hlt : bd < d
    · rw [if_pos hlt]
      have := ih (i + 1) i d (Nat.lt_succ_self i)
      calc argmax_aux rest (i + 1) i d < (i + 1) + rest.length := this
        _ = i + (d :: rest).length := by simp [List.length_cons]; ring
    · rw [if_neg hlt]
      have := ih (i + 1) bi bd (Nat.lt_succ_of_lt h)
      calc argmax_aux rest (i + 1) bi bd < (i + 1) + rest.length := this
        _ = i + (d :: rest).length := by simp [List.length_cons]; ring

/-- np.argmax of a non-empty list is an in-range index. -/
theorem argmax_idx_lt_length {α : Type} [LinearOrder α] (l : List α) (h : l ≠ []) :
    argmax_idx l < l.length := by
  cases l with
  | nil => exact absurd rfl h
  | cons d rest =>
    rw [argmax_idx]
    have := argmax_aux_lt rest 1 0 d (Nat.zero_lt_one)
    simpa [List.length_cons, Nat.add_comm] using this

/- ------------------------------------------------------------------ -/
/- C2: the Original palette is the identity.                           -/
/- ------------------------------------------------------------------ -/

/-- C2: for every input image, apply_palette_unified with
palette_name = "Original" returns the input unchanged on all RGB channels and
on the alpha channel, whatever the other configuration flags and external
collaborators are. -/
theorem C2_original_identity (ext : Ext) (img : Img)
    (customColors : Option (ℤ ⊕ List Color)) (dither : Bool)
    (extractPolicy mappingPolicy : String) (w_sat w_con w_rar : ℝ) (autoOptimal : Bool) :
    apply_palette_unified ext img "Original" customColors dither extractPolicy mappingPolicy
      w_sat w_con w_rar autoOptimal = img := by
  simp [apply_palette_unified]

/- ------------------------------------------------------------------ -/
/- C8: consolidation is idempotent.                                    -/
/- ------------------------------------------------------------------ -/

theorem consolidate_go_idem (t : ℝ) (l : List Color) :
    ∀ kept, consolidate_go t kept (consolidate_go t kept l) = consolidate_go t kept l := by
  induction l with
  | nil => intro kept; simp [consolidate_go]
  | cons c rest ih =>
    intro kept
    by_cases hdup : ∃ u ∈ kept, Real.sqrt (lab_sq_dist (rgb_to_lab c) u) < t
    · rw [consolidate_go, if_pos hdup]
      exact ih kept
    · rw [consolidate_go, if_neg hdup, consolidate_go, if_neg hdup]
      exact congrArg (c :: ·) (ih (kept ++ [rgb_to_lab c]))

/-- C8: consolidate_palette is idempotent: consolidating an already
consolidated palette with the same Delta-E threshold returns it unchanged. -/
theorem C8_consolidate_idempotent (colors : List Color) (threshold : ℝ) :
    consolidate_palette (consolidate_palette colors threshold) threshold =
      consolidate_palette colors threshold := by
  unfold consolidate_palette
  by_cases h : colors = []
  · simp [h]
  · rw [if_neg h]
    by_cases h2 : consolidate_go threshold [] colors = []
    · rw [h2]; simp
    · rw [if_neg h2]
      exact consolidate_go_idem threshold colors []

/- ------------------------------------------------------------------ -/
/- C10: the stability filter never introduces a new color.             -/
/- ------------------------------------------------------------------ -/

theorem px_at_mem (w : ℕ) (px : List Pixel) (y x : ℕ) (h : y * w + x < px.length) :
    px_at w px y x ∈ px :=
  list_getD_mem px (y * w + x) ((0, 0, 0), 0) h

theorem shifted_at_mem (h w : ℕ) (px : List Pixel) (s : ℤ × ℤ) (y x : ℕ)
    (hlen : px.length = h * w) (hh : 0 < h) (hw : 0 < w) :
    shifted_at h w px s y x ∈ px := by
  unfold shifted_at
  apply px_at_mem
  rw [hlen]
  have hy : (((y : ℤ) - s.1) % (h : ℤ)).toNat < h := by
    have h1 : 0 ≤ ((y : ℤ) - s.1) % (h : ℤ) :=
      Int.emod_nonneg _ (by exact_mod_cast hh.ne')
    have h2 : ((y : ℤ) - s.1) % (h : ℤ) < (h : ℤ) :=
      Int.emod_lt_of_pos _ (by exact_mod_cast hh)
    omega
  have hx : (((x : ℤ) - s.2) % (w : ℤ)).toNat < w := by
    have h1 : 0 ≤ ((x : ℤ) - s.2) % (w : ℤ) :=
      Int.emod_nonneg _ (by exact_mod_cast hw.ne')
    have h2 : ((x : ℤ) - s.2) % (w : ℤ) < (w : ℤ) :=
      Int.emod_lt_of_pos _ (by exact_mod_cast hw)
    omega
  calc (((y : ℤ) - s.1) % (h : ℤ)).toNat * w + (((x : ℤ) - s.2) % (w : ℤ)).toNat
      ≤ (h - 1) * w + (w - 1) := by
        apply Nat.add_le_add
        · exact Nat.mul_le_mul_right w (Nat.le_sub_one_of_lt hy)
        · exact Nat.le_sub_one_of_lt hx
    _ < h * w := by
        have : (h - 1) * w + w = h * w := by
          cases h with
          | zero => omega
          | succ n => simp [Nat.succ_sub_one, Nat.succ_mul]
        omega

theorem stability_step_mem (h w : ℕ) (px : List Pixel) (hlen : px.length = h * w) :
    ∀ q ∈ stability_step h w px, q ∈ px := by
  intro q hq
  unfold stability_step at hq
  rcases List.mem_map.mp hq with ⟨k, hk, rfl⟩
  have hklt : k < h * w := List.mem_range.mp hk
  have hh : 0 < h := by
    rcases Nat.eq_zero_or_pos h with h0 | h0
    · rw [h0, Nat.zero_mul] at hklt; omega
    · exact h0
  have hw : 0 < w := by
    rcases Nat.eq_zero_or_pos w with h0 | h0
    · rw [h0, Nat.mul_zero] at hklt; omega
    · exact h0
  by_cases hiso : isolated_at h w px (k / w) (k % w) = true
  · rw [if_pos hiso]
    exact shifted_at_mem h w px (-1, 0) (k / w) (k % w) hlen hh hw
  · rw [if_neg hiso]
    apply px_at_mem
    rw [hlen, Nat.div_add_mod']
    exact hklt

theorem stability_step_length (h w : ℕ) (px : List Pixel) :
    (stability_step h w px).length = h * w := by
  simp [stability_step]

theorem stability_iter_mem (h w : ℕ) (n : ℕ) :
    ∀ (px : List Pixel), px.length = h * w →
      ∀ q ∈ stability_iter h w px n, q ∈ px := by
  induction n with
  | zero => intro px _ q hq; exact hq
  | succ n ih =>
    intro px hlen q hq
    rw [stability_iter] at hq
    by_cases hni : no_isolated h w px = true
    · rw [if_pos hni] at hq; exact hq
    · rw [if_neg hni] at hq
      have hq2 := ih (stability_step h w px) (stability_step_length h w px) q hq
      exact stability_step_mem h w px hlen q hq2

/-- C10: the stability filter never introduces a color absent from its input:
every RGB value of apply_stability_filter occurs as the RGB part of some input
pixel, for any pass count, because isolated pixels are only overwritten with a
neighbor value of the unmodified buffer. -/
theorem C10_stability_no_new_colors (h w : ℕ) (px : List Pixel) (iterations : ℕ)
    (hlen : px.length = h * w) :
    ∀ c ∈ apply_stability_filter h w px iterations, ∃ p ∈ px, p.1 = c := by
  intro c hc
  unfold apply_stability_filter at hc
  rcases List.mem_map.mp hc with ⟨q, hq, rfl⟩
  exact ⟨q, stability_iter_mem h w iterations px hlen q hq, rfl⟩

/-- Witness for C10 on a concrete 2 x 2 image of four distinct colors (every
pixel is isolated and gets overwritten): the output color (3,3,3) indeed occurs
in the input. -/
theorem C10_stability_no_new_colors_witness :
    ∃ p ∈ ([(((1, 1, 1) : Color), 255), (((2, 2, 2) : Color), 255),
            (((3, 3, 3) : Color), 255), (((4, 4, 4) : Color), 255)] : List Pixel),
      p.1 = ((3, 3, 3) : Color) :=
  C10_stability_no_new_colors 2 2
    [(((1, 1, 1) : Color), 255), (((2, 2, 2) : Color), 255),
     (((3, 3, 3) : Color), 255), (((4, 4, 4) : Color), 255)] 1 (by decide)
    ((3, 3, 3) : Color) (by decide)

/- ------------------------------------------------------------------ -/
/- C9: uniform images downsample to the exact source color.            -/
/- ------------------------------------------------------------------ -/

theorem list_getD_replicate {α : Type} (n : ℕ) (a d : α) (i : ℕ) (h : i < n) :
    (List.replicate n a).getD i d = a := by
  rw [List.getD_eq_getElem?_getD, List.getElem?_eq_getElem (by simpa using h)]
  simp

theorem flatMap_congr_left {α β : Type} (l : List α) (f g : α → List β)
    (h : ∀ a ∈ l, f a = g a) : l.flatMap f = l.flatMap g := by
  induction l with
  | nil => rfl
  | cons a rest ih =>
    simp only [List.flatMap_cons]
    rw [h a (List.mem_cons_self a rest),
      ih (fun x hx => h x (List.mem_cons_of_mem a hx))]

theorem flatMap_const_replicate {α : Type} (l : List α) (m : ℕ) (c : Pixel) :
    (l.flatMap (fun _ => List.replicate m c)) = List.replicate (l.length * m) c := by
  induction l with
  | nil => simp
  | cons a rest ih =>
    simp only [List.flatMap_cons, ih, List.length_cons]
    rw [← List.replicate_add]
    congr 1
    ring

theorem qmean_replicate (n : ℕ) (hn : n ≠ 0) (a : ℚ) :
    qmean (List.replicate n a) = a := by
  unfold qmean
  rw [List.sum_replicate, List.length_replicate, nsmul_eq_mul]
  field_simp

theorem qvar_replicate (n : ℕ) (a : ℚ) : qvar (List.replicate n a) = 0 := by
  unfold qvar
  by_cases h : (List.replicate n a).length ≤ 1
  · rw [if_pos h]
  · rw [if_neg h]
    have hn : n ≠ 0 := by
      intro h0; rw [h0] at h; simp at h
    have hm : qmean (List.replicate n a) = a := qmean_replicate n hn a
    have : (List.replicate n a).map (fun x => (x - qmean (List.replicate n a)) ^ 2) =
        List.replicate n 0 := by
      rw [List.map_replicate, hm]
      norm_num
    rw [this, List.sum_replicate]
    simp

theorem block_pixels_uniform (h w ps oh ow : ℕ) (c : Pixel)
    (bi bj : ℕ) (hbi : bi < oh) (hbj : bj < ow)
    (hh : oh * ps ≤ h) (hw : ow * ps ≤ w) :
    block_pixels ⟨h, w, List.replicate (h * w) c⟩ ps bi bj = List.replicate (ps * ps) c := by
  unfold block_pixels
  have hbody : ∀ i ∈ List.range ps,
      (List.range ps).map (fun j =>
        (List.replicate (h * w) c).getD ((bi * ps + i) * w + (bj * ps + j)) ((0, 0, 0), 0)) =
      List.replicate ps c := by
    intro i hi
    have hilt : i < ps := List.mem_range.mp hi
    have : ∀ j ∈ List.range ps,
        (List.replicate (h * w) c).getD ((bi * ps + i) * w + (bj * ps + j)) ((0, 0, 0), 0) = c := by
      intro j hj
      have hjlt : j < ps := List.mem_range.mp hj
      apply list_getD_replicate
      have hy : bi * ps + i < h := by
        have h1 : bi * ps + i < oh * ps := by
          calc bi * ps + i < bi * ps + ps := by omega
            _ = (bi + 1) * ps := by ring
            _ ≤ oh * ps := Nat.mul_le_mul_right ps hbi
        omega
      have hx : bj * ps + j < w := by
        have h1 : bj * ps + j < ow * ps := by
          calc bj * ps + j < bj * ps + ps := by omega
            _ = (bj + 1) * ps := by ring
            _ ≤ ow * ps := Nat.mul_le_mul_right ps hbj
        omega
      calc (bi * ps + i) * w + (bj * ps + j) ≤ (h - 1) * w + (w - 1) := by
            apply Nat.add_le_add
            · exact Nat.mul_le_mul_right w (Nat.le_sub_one_of_lt hy)
            · exact Nat.le_sub_one_of_lt hx
        _ < h * w := by
            have hhp : 0 < h := by omega
            have hwp : 0 < w := by omega
            have : (h - 1) * w + w = h * w := by
              cases h with
              | zero => omega
              | succ n => simp [Nat.succ_sub_one, Nat.succ_mul]
            omega
    calc (List.range ps).map (fun j =>
          (List.replicate (h * w) c).getD ((bi * ps + i) * w + (bj * ps + j)) ((0, 0, 0), 0))
        = (List.range ps).map (fun _ => c) := List.map_congr_left this
      _ = List.replicate ps c := by
          rw [List.map_const']
          simp
  calc (List.range ps).flatMap (fun i =>
        (List.range ps).map (fun j =>
          (List.replicate (h * w) c).getD ((bi * ps + i) * w + (bj * ps + j)) ((0, 0, 0), 0)))
      = (List.range ps).flatMap (fun _ => List.replicate ps c) := by
        exact flatMap_congr_left _ _ _ hbody
    _ = List.replicate (ps * ps) c := by
        rw [flatMap_const_replicate]
        simp

theorem toByte_natCast (n : ℕ) : toByte ((n : ℚ)) = n := by
  simp [toByte]

/-- C9: downsampling a uniform image whose block grid fits inside it yields the
exact source RGBA color at every output pixel: every block has zero variance,
so only the mean branch of downsample_kmeans_adaptive runs, and the mean of a
constant block is that constant. -/
theorem C9_uniform_downsample_exact (c : Pixel) (h w ps ow oh : ℕ)
    (hps : 0 < ps) (hh : oh * ps ≤ h) (hw : ow * ps ≤ w)
    (_hv : validColor c.1 ∧ c.2 ≤ 255) :
    downsample_kmeans_adaptive ⟨h, w, List.replicate (h * w) c⟩ ps ow oh =
      ⟨oh, ow, List.replicate (oh * ow) c⟩ := by
  unfold downsample_kmeans_adaptive
  congr 1
  have hbody : ∀ k ∈ List.range (oh * ow),
      (let blk := block_pixels ⟨h, w, List.replicate (h * w) c⟩ ps (k / ow) (k % ow)
       let pts := blk.map rgbq
       let variance := qvar (pts.map (fun p => p.1)) + qvar (pts.map (fun p => p.2.1)) +
         qvar (pts.map (fun p => p.2.2))
       let meanc : ℚ × ℚ × ℚ :=
         (qmean (pts.map (fun p => p.1)), qmean (pts.map (fun p => p.2.1)),
           qmean (pts.map (fun p => p.2.2)))
       let rgbc := if (40 : ℚ) * 3 < variance then kmeans2 pts else meanc
       let alpha := qmean (blk.map (fun p => (p.2 : ℚ)))
       (((toByte rgbc.1, toByte rgbc.2.1, toByte rgbc.2.2), toByte alpha) : Pixel)) = c := by
    intro k hk
    have hklt : k < oh * ow := List.mem_range.mp hk
    have how : 0 < ow := by
      rcases Nat.eq_zero_or_pos ow with h0 | h0
      · rw [h0, Nat.mul_zero] at hklt; omega
      · exact h0
    have hklt2 : k < ow * oh := by rw [Nat.mul_comm ow oh]; exact hklt
    have hbi : k / ow < oh := Nat.div_lt_of_lt_mul hklt2
    have hbj : k % ow < ow := Nat.mod_lt k how
    have hblk : block_pixels ⟨h, w, List.replicate (h * w) c⟩ ps (k / ow) (k % ow) =
        List.replicate (ps * ps) c :=
      block_pixels_uniform h w ps oh ow c (k / ow) (k % ow) hbi hbj hh hw
    have hn : ps * ps ≠ 0 := by positivity
    simp only [hblk, List.map_replicate]
    have hvar : ∀ q : ℚ, qvar (List.replicate (ps * ps) q) = 0 := fun q => qvar_replicate _ q
    have hmean : ∀ q : ℚ, qmean (List.replicate (ps * ps) q) = q :=
      fun q => qmean_replicate _ hn q
    rw [hvar, hvar, hvar, hmean, hmean, hmean, hmean]
    rw [if_neg (by norm_num)]
    simp only [rgbq, toByte_natCast]
  calc (List.range (oh * ow)).map _
      = (List.range (oh * ow)).map (fun _ => c) := List.map_congr_left hbody
    _ = List.replicate (oh * ow) c := by
        rw [List.map_const']
        simp

/-- Witness for C9 and the concrete spec scenario: a 4 x 4 solid red
(255, 0, 0, 255) image downsampled with block_size 2 to 2 x 2 yields four
pixels of exactly (255, 0, 0, 255). -/
theorem C9_uniform_downsample_exact_witness :
    downsample_kmeans_adaptive ⟨4, 4, List.replicate 16 (((255, 0, 0) : Color), 255)⟩ 2 2 2 =
      ⟨2, 2, List.replicate 4 (((255, 0, 0) : Color), 255)⟩ :=
  C9_uniform_downsample_exact (((255, 0, 0) : Color), 255) 4 4 2 2 2 (by decide) (by decide)
    (by decide) (by decide)

/- ------------------------------------------------------------------ -/
/- LAB conversion facts.                                               -/
/- ------------------------------------------------------------------ -/

theorem srgb_linear_nonneg (c : ℝ) (hc : 0 ≤ c) : 0 ≤ srgb_linear c := by
  unfold srgb_linear
  split
  · exact Real.rpow_nonneg (div_nonneg (by linarith) (by norm_num)) _
  · exact div_nonneg hc (by norm_num)

theorem srgb_linear_pos (c : ℝ) (hc : 0.04045 < c) : 0 < srgb_linear c := by
  unfold srgb_linear
  rw [if_pos hc]
  exact Real.rpow_pos_of_pos (div_pos (by linarith) (by norm_num)) _

theorem srgb_linear_small (c : ℝ) (hc : ¬ 0.04045 < c) : srgb_linear c = c / 12.92 :=
  if_neg hc

theorem lab_f_small (t : ℝ) (ht : ¬ 0.008856 < t) : lab_f t = 7.787 * t + 16 / 116 :=
  if_neg ht

theorem lab_f_gt (t : ℝ) (ht : 0 < t) : 16 / 116 < lab_f t := by
  unfold lab_f
  split_ifs with h
  · have h1 : ((16 / 116 : ℝ)) ^ (3 : ℕ) < t := by
      have : ((16 / 116 : ℝ)) ^ (3 : ℕ) < 0.008856 := by norm_num
      linarith
    have h2 : (((16 / 116 : ℝ) ^ (3 : ℕ))) ^ ((1 : ℝ) / 3) < t ^ ((1 : ℝ) / 3) :=
      Real.rpow_lt_rpow (by positivity) h1 (by norm_num)
    calc (16 / 116 : ℝ) = ((16 / 116 : ℝ) ^ (3 : ℕ)) ^ ((1 : ℝ) / 3) := by
          rw [← Real.rpow_natCast ((16 : ℝ) / 116) 3,
            ← Real.rpow_mul (by norm_num : (0 : ℝ) ≤ 16 / 116)]
          norm_num
      _ < t ^ ((1 : ℝ) / 3) := h2
  · have h7 : (0 : ℝ) < 7.787 * t := by positivity
    linarith

theorem rgb_to_lab_fst (c : Color) :
    (rgb_to_lab c).1 = 116 * lab_f
      (srgb_linear ((c.1 : ℝ) / 255) * 0.2126729 + srgb_linear ((c.2.1 : ℝ) / 255) * 0.7151522 +
        srgb_linear ((c.2.2 : ℝ) / 255) * 0.0721750) - 16 := rfl

theorem rgb_to_lab_L_pos (c : Color) (hg : 11 ≤ c.2.1) : 0 < (rgb_to_lab c).1 := by
  rw [rgb_to_lab_fst]
  have hg255 : (0.04045 : ℝ) < (c.2.1 : ℝ) / 255 := by
    have : (11 : ℝ) ≤ (c.2.1 : ℝ) := by exact_mod_cast hg
    nlinarith
  have h1 : 0 < srgb_linear ((c.2.1 : ℝ) / 255) := srgb_linear_pos _ hg255
  have h2 : 0 ≤ srgb_linear ((c.1 : ℝ) / 255) := srgb_linear_nonneg _ (by positivity)
  have h3 : 0 ≤ srgb_linear ((c.2.2 : ℝ) / 255) := srgb_linear_nonneg _ (by positivity)
  have hy : 0 < srgb_linear ((c.1 : ℝ) / 255) * 0.2126729 +
      srgb_linear ((c.2.1 : ℝ) / 255) * 0.7151522 +
      srgb_linear ((c.2.2 : ℝ) / 255) * 0.0721750 := by nlinarith
  have := lab_f_gt _ hy
  linarith

theorem rgb_to_lab_zero : rgb_to_lab ((0, 0, 0) : Color) = ((0 : ℝ), (0 : ℝ), (0 : ℝ)) := by
  unfold rgb_to_lab rgb_to_lab_core
  have h0 : srgb_linear ((((0, 0, 0) : Color).1 : ℝ) / 255) = 0 := by
    rw [srgb_linear_small _ (by norm_num)]
    norm_num
  have h1 : srgb_linear ((((0, 0, 0) : Color).2.1 : ℝ) / 255) = 0 := h0
  have h2 : srgb_linear ((((0, 0, 0) : Color).2.2 : ℝ) / 255) = 0 := h0
  simp only [h0, h1, h2]
  norm_num
  rw [lab_f_small 0 (by norm_num)]
  norm_num

/-- Closed form of rgb_to_lab on near-black reds (v, 0, 0) with v ≤ 10: every
branch of the conversion is in its linear segment, so the LAB value is an
exact rational multiple of v. -/
theorem lab_red_components (v : ℕ) (hv : v ≤ 10) :
    rgb_to_lab ((v, 0, 0) : Color) =
      (903.292 * ((v : ℝ) / 255 / 12.92 * 0.2126729),
       3893.5 * ((v : ℝ) / 255 / 12.92 * 0.4124564 / 0.95047 -
         (v : ℝ) / 255 / 12.92 * 0.2126729),
       1557.4 * ((v : ℝ) / 255 / 12.92 * 0.2126729 -
         (v : ℝ) / 255 / 12.92 * 0.0193339 / 1.08883)) := by
  have hv10 : (v : ℝ) ≤ 10 := by exact_mod_cast hv
  have hv0 : (0 : ℝ) ≤ (v : ℝ) := Nat.cast_nonneg v
  have hlr : srgb_linear ((v : ℝ) / 255) = (v : ℝ) / 255 / 12.92 := by
    apply srgb_linear_small
    rw [not_lt]
    linarith
  have h0 : srgb_linear (((0 : ℕ) : ℝ) / 255) = 0 := by
    rw [srgb_linear_small _ (by norm_num)]
    norm_num
  have hlrb : (0 : ℝ) ≤ (v : ℝ) / 255 / 12.92 := by positivity
  have hlru : (v : ℝ) / 255 / 12.92 ≤ 0.0031 := by
    rw [div_le_iff₀ (by norm_num : (0 : ℝ) < 12.92)]
    rw [div_le_iff₀ (by norm_num : (0 : ℝ) < 255)]
    linarith
  unfold rgb_to_lab rgb_to_lab_core
  simp only [hlr, h0]
  have hy : ¬ (0.008856 : ℝ) < (v : ℝ) / 255 / 12.92 * 0.2126729 + 0 * 0.7151522 + 0 * 0.0721750 := by
    rw [not_lt]
    nlinarith
  have hx : ¬ (0.008856 : ℝ) <
      ((v : ℝ) / 255 / 12.92 * 0.4124564 + 0 * 0.3575761 + 0 * 0.1804375) / 0.95047 := by
    rw [not_lt, div_le_iff₀ (by norm_num : (0 : ℝ) < 0.95047)]
    nlinarith
  have hz : ¬ (0.008856 : ℝ) <
      ((v : ℝ) / 255 / 12.92 * 0.0193339 + 0 * 0.1191920 + 0 * 0.9503041) / 1.08883 := by
    rw [not_lt, div_le_iff₀ (by norm_num : (0 : ℝ) < 1.08883)]
    nlinarith
  rw [lab_f_small _ hy, lab_f_small _ hx, lab_f_small _ hz]
  simp only [Prod.mk.injEq]
  refine ⟨by ring, by ring, by ring⟩

theorem lab_L_red_lt : (rgb_to_lab ((8, 0, 0) : Color)).1 < (rgb_to_lab ((9, 0, 0) : Color)).1 := by
  rw [lab_red_components 8 (by norm_num), lab_red_components 9 (by norm_num)]
  norm_num

theorem lab_sq_dist_nine_eight_pos :
    0 < lab_sq_dist (rgb_to_lab ((9, 0, 0) : Color)) (rgb_to_lab ((8, 0, 0) : Color)) := by
  have hL := lab_L_red_lt
  unfold lab_sq_dist
  have h1 : 0 < ((rgb_to_lab ((9, 0, 0) : Color)).1 - (rgb_to_lab ((8, 0, 0) : Color)).1) ^ 2 :=
    pow_pos (sub_pos.mpr hL) 2
  nlinarith [sq_nonneg ((rgb_to_lab ((9, 0, 0) : Color)).2.1 - (rgb_to_lab ((8, 0, 0) : Color)).2.1),
    sq_nonneg ((rgb_to_lab ((9, 0, 0) : Color)).2.2 - (rgb_to_lab ((8, 0, 0) : Color)).2.2)]

theorem lab_sq_dist_zero_pos (c : Color) (hg : 11 ≤ c.2.1) :
    0 < lab_sq_dist (rgb_to_lab ((0, 0, 0) : Color)) (rgb_to_lab c) := by
  rw [rgb_to_lab_zero]
  unfold lab_sq_dist
  dsimp only
  have hL := rgb_to_lab_L_pos c hg
  nlinarith [sq_nonneg ((0 : ℝ) - (rgb_to_lab c).2.1), sq_nonneg ((0 : ℝ) - (rgb_to_lab c).2.2),
    mul_pos hL hL]

/- ------------------------------------------------------------------ -/
/- One-row images are fixed points of the stability filter.            -/
/- ------------------------------------------------------------------ -/

theorem isolated_at_one_row (w : ℕ) (px : List Pixel) (x : ℕ) (hx : x < w) :
    isolated_at 1 w px 0 x = false := by
  unfold isolated_at neighbor_shifts
  have hsh : shifted_at 1 w px (-1, 0) 0 x = px_at w px 0 x := by
    unfold shifted_at
    have h1 : (((0 : ℕ) : ℤ) - (-1 : ℤ)) % ((1 : ℕ) : ℤ) = 0 := by decide
    have h2 : (((x : ℕ) : ℤ) - (0 : ℤ)) % ((w : ℕ) : ℤ) = (x : ℤ) := by
      rw [sub_zero]
      exact Int.emod_eq_of_lt (by positivity) (by exact_mod_cast hx)
    rw [h1, h2]
    norm_num
  simp only [List.all_cons, hsh, bne_self_eq_false, Bool.false_and]

theorem no_isolated_one_row (w : ℕ) (px : List Pixel) : no_isolated 1 w px = true := by
  unfold no_isolated
  rw [List.all_eq_true]
  intro k hk
  have hklt : k < 1 * w := List.mem_range.mp hk
  have hkw : k < w := by omega
  have h0 : k / w = 0 := Nat.div_eq_of_lt hkw
  have h1 : k % w = k := Nat.mod_eq_of_lt hkw
  simp only [h0, h1, isolated_at_one_row w px k hkw, Bool.not_false]

theorem stability_iter_one_row (w : ℕ) (px : List Pixel) (n : ℕ) :
    stability_iter 1 w px n = px := by
  cases n with
  | zero => rfl
  | succ n => rw [stability_iter, if_pos (no_isolated_one_row w px)]

theorem apply_stability_filter_one_row (w : ℕ) (rgb : List Color) (n : ℕ) :
    apply_stability_filter 1 w (rgb.map (fun c => (c, 255))) n = rgb := by
  unfold apply_stability_filter
  rw [stability_iter_one_row, List.map_map]
  calc List.map ((fun (q : Pixel) => q.1) ∘ fun c => (c, 255)) rgb
      = List.map id rgb := List.map_congr_left (fun a _ => rfl)
    _ = rgb := List.map_id rgb

/- ------------------------------------------------------------------ -/
/- Branch computations of the unified pipeline.                        -/
/- ------------------------------------------------------------------ -/

/-- The Custom_User / Perceptual / no-dither / no-auto-optimal path of
apply_palette_unified: LAB nearest-neighbor mapping on the unboosted RGB data
against the zero-padded palette, one stability pass, alpha recomposed. -/
theorem custom_user_perceptual_nodither_eq (ext : Ext) (img : Img) (colors : List Color)
    (hc : colors ≠ []) (extractPolicy : String) (w_sat w_con w_rar : ℝ) :
    apply_palette_unified ext img "Custom_User" (some (Sum.inr colors)) false
      extractPolicy "Perceptual" w_sat w_con w_rar false =
    ⟨img.ih, img.iw,
      (apply_stability_filter img.ih img.iw
        ((map_to_palette_lab (img.px.map Prod.fst) (pad256 colors)).map (fun c => (c, 255))) 1).zip
        (img.px.map Prod.snd)⟩ := by
  have hne : colors.isEmpty = false := by
    cases colors with
    | nil => exact absurd rfl hc
    | cons a l => rfl
  simp +decide [apply_palette_unified, generate_target_palette, custom_truthy, custom_list,
    hne, hc]

/-- The GameBoy / Perceptual / no-dither / no-auto-optimal path of
apply_palette_unified. -/
theorem gameboy_perceptual_nodither_eq (ext : Ext) (img : Img)
    (custom : Option (ℤ ⊕ List Color)) (extractPolicy : String) (w_sat w_con w_rar : ℝ) :
    apply_palette_unified ext img "GameBoy" custom false
      extractPolicy "Perceptual" w_sat w_con w_rar false =
    ⟨img.ih, img.iw,
      (apply_stability_filter img.ih img.iw
        ((map_to_palette_lab (img.px.map Prod.fst) (pad256 gameboy_colors)).map
          (fun c => (c, 255))) 1).zip (img.px.map Prod.snd)⟩ := by
  simp +decide [apply_palette_unified, generate_target_palette]

theorem dist_tail_nonneg (p : Lab) (l : List ℝ)
    (h : ∀ x ∈ l, 0 ≤ x) (q : Lab) : ∀ x ∈ lab_sq_dist p q :: l, 0 ≤ x := by
  intro x hx
  rcases List.mem_cons.mp hx with h1 | h1
  · rw [h1]; exact lab_sq_dist_nonneg p q
  · exact h x h1

theorem replicate_dist_nonneg (n : ℕ) (d : ℝ) (hd : 0 ≤ d) :
    ∀ x ∈ List.replicate n d, 0 ≤ x := by
  intro x hx
  rw [List.eq_of_mem_replicate hx]
  exact hd

/-- np.argmin lands on the second entry when the first is positive, the second
is zero and the rest are nonnegative. -/
theorem argmin_idx_second_zero (d0 : ℝ) (rest : List ℝ) (hd0 : 0 < d0)
    (h2 : ∀ x ∈ rest, 0 ≤ x) : argmin_idx (d0 :: (0 : ℝ) :: rest) = 1 := by
  have h := argmin_idx_first_zero [d0] rest (by simp)
    (by intro x hx; rw [List.mem_singleton.mp hx]; exact hd0) h2
  simpa using h

set_option maxRecDepth 8000 in
/-- LAB nearest-neighbor of the near-black pixel (8,0,0) against the padded
two-color palette: the exact-match entry at index 0 wins. -/
theorem map_lab_eight : map_to_palette_lab [((8, 0, 0) : Color)] (pad256 c4_colors) =
    [((8, 0, 0) : Color)] := by
  unfold map_to_palette_lab
  dsimp only
  simp only [List.map_cons, List.map_nil]
  rw [List.map_map]
  have hpal : pad256 c4_colors =
      ((8, 0, 0) : Color) :: ((9, 0, 0) : Color) :: List.replicate 254 ((0, 0, 0) : Color) := by
    decide
  rw [hpal]
  simp only [List.map_cons, List.map_replicate]
  have h8 : ((fun q => lab_sq_dist (rgb_to_lab ((8, 0, 0) : Color)) q) ∘ rgb_to_lab)
      ((8, 0, 0) : Color) = 0 := lab_sq_dist_self _
  rw [h8, argmin_idx_head_zero]
  · rfl
  · apply dist_tail_nonneg
    apply replicate_dist_nonneg
    exact lab_sq_dist_nonneg _ _

set_option maxRecDepth 8000 in
/-- LAB nearest-neighbor of the boosted pixel (9,0,0) against the same padded
palette: the exact-match entry at index 1 wins, because the distance to
(8,0,0) is strictly positive and the padded black entries are no closer. -/
theorem map_lab_nine : map_to_palette_lab [((9, 0, 0) : Color)] (pad256 c4_colors) =
    [((9, 0, 0) : Color)] := by
  unfold map_to_palette_lab
  dsimp only
  simp only [List.map_cons, List.map_nil]
  rw [List.map_map]
  have hpal : pad256 c4_colors =
      ((8, 0, 0) : Color) :: ((9, 0, 0) : Color) :: List.replicate 254 ((0, 0, 0) : Color) := by
    decide
  rw [hpal]
  simp only [List.map_cons, List.map_replicate]
  have h9 : ((fun q => lab_sq_dist (rgb_to_lab ((9, 0, 0) : Color)) q) ∘ rgb_to_lab)
      ((9, 0, 0) : Color) = 0 := lab_sq_dist_self _
  rw [h9, argmin_idx_second_zero]
  · rfl
  · exact lab_sq_dist_nine_eight_pos
  · apply replicate_dist_nonneg
    exact lab_sq_dist_nonneg _ _

/- ------------------------------------------------------------------ -/
/- C4: the Perceptual saturation boost on the no-dither path.          -/
/- ------------------------------------------------------------------ -/

/-- C4 counterexample: the claim asserts that with dithering disabled the
Perceptual result equals the LAB nearest-neighbor assignment computed on the
1.2x saturation-boosted image.  At the concrete 1 x 1 image holding (8,0,0)
with the two-color palette [(8,0,0),(9,0,0)], the pipeline (whose boost
collaborator is the spec-modelled 1.2x saturation boost) outputs (8,0,0) — it
maps the unboosted pixel — while the nearest-neighbor assignment on the boosted
image is (9,0,0). -/
theorem C4_perceptual_nodither_boost_cex :
    (apply_palette_unified ext4 c4_img "Custom_User" (some (Sum.inr c4_colors)) false
       "Standard" "Perceptual" 0.4 0.3 0.3 false).px.map Prod.fst = [((8, 0, 0) : Color)] ∧
    map_to_palette_lab (ext4.boost (c4_img.px.map Prod.fst)) (pad256 c4_colors) =
      [((9, 0, 0) : Color)] ∧
    ((8, 0, 0) : Color) ≠ ((9, 0, 0) : Color) := by
  refine ⟨?_, ?_, by decide⟩
  · rw [custom_user_perceptual_nodither_eq ext4 c4_img c4_colors (by decide) "Standard"
      0.4 0.3 0.3]
    show ((apply_stability_filter 1 1
        ((map_to_palette_lab [((8, 0, 0) : Color)] (pad256 c4_colors)).map
          (fun c => (c, 255))) 1).zip [255]).map Prod.fst = [((8, 0, 0) : Color)]
    rw [map_lab_eight, apply_stability_filter_one_row]
    rfl
  · have hb : ext4.boost (c4_img.px.map Prod.fst) = [((9, 0, 0) : Color)] := by decide
    rw [hb, map_lab_nine]

/-- C4 amended: under the Perceptual mapping policy the 1.2x saturation boost
is applied only on the dithered path; with dithering disabled the result is the
LAB nearest-neighbor assignment computed on the unboosted image (followed by
one stability-filter pass and alpha recomposition), for every saturation-boost
collaborator. -/
theorem C4_perceptual_nodither_no_boost (ext : Ext) (img : Img) (colors : List Color)
    (hc : colors ≠ []) (extractPolicy : String) (w_sat w_con w_rar : ℝ) :
    apply_palette_unified ext img "Custom_User" (some (Sum.inr colors)) false
      extractPolicy "Perceptual" w_sat w_con w_rar false =
    ⟨img.ih, img.iw,
      (apply_stability_filter img.ih img.iw
        ((map_to_palette_lab (img.px.map Prod.fst) (pad256 colors)).map (fun c => (c, 255))) 1).zip
        (img.px.map Prod.snd)⟩ :=
  custom_user_perceptual_nodither_eq ext img colors hc extractPolicy w_sat w_con w_rar

/-- Witness for C4 amended at a concrete image and palette. -/
theorem C4_perceptual_nodither_no_boost_witness :
    apply_palette_unified idExt c4_img "Custom_User" (some (Sum.inr c4_colors)) false
      "Standard" "Perceptual" 0.4 0.3 0.3 false =
    ⟨c4_img.ih, c4_img.iw,
      (apply_stability_filter c4_img.ih c4_img.iw
        ((map_to_palette_lab (c4_img.px.map Prod.fst) (pad256 c4_colors)).map
          (fun c => (c, 255))) 1).zip (c4_img.px.map Prod.snd)⟩ :=
  C4_perceptual_nodither_no_boost idExt c4_img c4_colors (by decide) "Standard" 0.4 0.3 0.3

/- ------------------------------------------------------------------ -/
/- C1: the GameBoy mapping leaks the padded black palette slot.        -/
/- ------------------------------------------------------------------ -/

set_option maxRecDepth 8000 in
/-- C1: mapping the 1 x 2 pure-gray gradient (black to white) to the GameBoy
palette with dithering off (Perceptual mapping) makes the output contain
(0,0,0): the black pixel matches one of the 252 zero-padded palette slots
exactly, and (0,0,0) is not among the four GameBoy entries.  This evaluates the
code at the failing input of the code_bug verdict. -/
theorem C1_gameboy_pad_black_leak :
    ((apply_palette_unified idExt c1_img "GameBoy" none false "Standard" "Perceptual"
        0.4 0.3 0.3 false).px.getD 0 (((0, 0, 0) : Color), 0)).1 = ((0, 0, 0) : Color) ∧
      ((0, 0, 0) : Color) ∉ gameboy_colors := by
  refine ⟨?_, by decide⟩
  rw [gameboy_perceptual_nodither_eq idExt c1_img none "Standard" 0.4 0.3 0.3]
  show (((apply_stability_filter 1 2
      ((map_to_palette_lab [((0, 0, 0) : Color), ((255, 255, 255) : Color)]
        (pad256 gameboy_colors)).map (fun c => (c, 255))) 1).zip [255, 255]).getD 0
      (((0, 0, 0) : Color), 0)).1 = ((0, 0, 0) : Color)
  have hmap : map_to_palette_lab [((0, 0, 0) : Color), ((255, 255, 255) : Color)]
      (pad256 gameboy_colors) =
      ((0, 0, 0) : Color) ::
        map_to_palette_lab [((255, 255, 255) : Color)] (pad256 gameboy_colors) := by
    unfold map_to_palette_lab
    dsimp only
    simp only [List.map_cons, List.map_nil]
    congr 1
    rw [List.map_map]
    have hpal : pad256 gameboy_colors =
        gameboy_colors ++ ((0, 0, 0) : Color) :: List.replicate 251 ((0, 0, 0) : Color) := by
      decide
    rw [hpal, List.map_append]
    simp only [List.map_cons, List.map_replicate]
    have h0 : ((fun q => lab_sq_dist (rgb_to_lab ((0, 0, 0) : Color)) q) ∘ rgb_to_lab)
        ((0, 0, 0) : Color) = 0 := lab_sq_dist_self _
    rw [h0, argmin_idx_first_zero]
    · rw [List.length_map]
      decide
    · simp [gameboy_colors]
    · intro x hx
      rcases List.mem_map.mp hx with ⟨c, hcm, rfl⟩
      have hall : ∀ c ∈ gameboy_colors, 11 ≤ c.2.1 := by decide
      exact lab_sq_dist_zero_pos c (hall c hcm)
    · exact replicate_dist_nonneg 251 0 (le_refl 0)
  rw [hmap, apply_stability_filter_one_row]
  rfl

/- ------------------------------------------------------------------ -/
/- C5: the greedy-pick suppression profile.                            -/
/- ------------------------------------------------------------------ -/

theorem lab_sq_dist_ten_zero_bounds :
    0 < lab_sq_dist (rgb_to_lab ((10, 0, 0) : Color)) (rgb_to_lab ((0, 0, 0) : Color)) ∧
      lab_sq_dist (rgb_to_lab ((10, 0, 0) : Color)) (rgb_to_lab ((0, 0, 0) : Color)) ≤
        (15 : ℝ) ^ 2 := by
  rw [lab_red_components 10 (by norm_num), rgb_to_lab_zero]
  unfold lab_sq_dist
  dsimp only
  norm_num

/-- C5 counterexample: the claim asserts full suppression (score multiplied by
zero) for every pixel whose squared LAB distance to the picked color is inside
the 15^2 radius.  The pixel (10,0,0) is at squared LAB distance roughly 8 from
the picked black color — well inside the radius — yet its score 1 is
multiplied by sq_dist/15^2, which is not zero. -/
theorem C5_suppression_partial_inside_radius_cex :
    lab_sq_dist (rgb_to_lab ((10, 0, 0) : Color)) (rgb_to_lab ((0, 0, 0) : Color)) ≤
      (15 : ℝ) ^ 2 ∧
    (suppress_scores [1] [rgb_to_lab ((10, 0, 0) : Color)]
      (rgb_to_lab ((0, 0, 0) : Color))).getD 0 0 ≠ 0 := by
  obtain ⟨hpos, hle⟩ := lab_sq_dist_ten_zero_bounds
  refine ⟨hle, ?_⟩
  unfold suppress_scores
  rw [List.zipWith_cons_cons, List.zipWith_nil_right]
  set d := lab_sq_dist (rgb_to_lab ((10, 0, 0) : Color)) (rgb_to_lab ((0, 0, 0) : Color)) with hd
  have h225 : (0 : ℝ) < (15 : ℝ) ^ 2 := by norm_num
  have hmax : max (d / (15 : ℝ) ^ 2) 0 = d / (15 : ℝ) ^ 2 :=
    max_eq_left (le_of_lt (div_pos hpos h225))
  have hmin : min (d / (15 : ℝ) ^ 2) 1 = d / (15 : ℝ) ^ 2 :=
    min_eq_left ((div_le_one h225).mpr hle)
  show (1 : ℝ) * min (max (d / (15 : ℝ) ^ 2) 0) 1 ≠ 0
  rw [hmax, hmin, one_mul]
  exact ne_of_gt (div_pos hpos h225)

/-- C5 amended: after each greedy pick a remaining pixel score is multiplied by
clip(sq_dist / 15^2, 0, 1): the factor grows linearly with the squared LAB
distance inside the radius (zero only at distance zero) and is 1 — no
suppression — at and beyond the radius. -/
theorem C5_suppression_linear_in_sqdist (scores : List ℝ) (labs : List Lab) (best : Lab)
    (i : ℕ) (hi : i < scores.length) (hl : i < labs.length) :
    (suppress_scores scores labs best).getD i 0 =
      scores.getD i 0 *
        (if lab_sq_dist (labs.getD i ((0 : ℝ), (0 : ℝ), (0 : ℝ))) best ≤ (15 : ℝ) ^ 2 then
          lab_sq_dist (labs.getD i ((0 : ℝ), (0 : ℝ), (0 : ℝ))) best / (15 : ℝ) ^ 2
        else 1) := by
  unfold suppress_scores
  have hz : i < (List.zipWith
      (fun s l => s * min (max (lab_sq_dist l best / (15 : ℝ) ^ 2) 0) 1) scores labs).length := by
    rw [List.length_zipWith]
    exact lt_min hi hl
  rw [List.getD_eq_getElem?_getD, List.getElem?_eq_getElem hz, List.getElem_zipWith,
    Option.getD_some, List.getD_eq_getElem?_getD scores, List.getElem?_eq_getElem hi,
    List.getD_eq_getElem?_getD labs, List.getElem?_eq_getElem hl, Option.getD_some,
    Option.getD_some]
  set d := lab_sq_dist labs[i] best with hd
  have hd0 : 0 ≤ d := lab_sq_dist_nonneg _ _
  have h225 : (0 : ℝ) < (15 : ℝ) ^ 2 := by norm_num
  congr 1
  by_cases hcase : d ≤ (15 : ℝ) ^ 2
  · rw [if_pos hcase, max_eq_left (div_nonneg hd0 (le_of_lt h225)),
      min_eq_left ((div_le_one h225).mpr hcase)]
  · rw [if_neg hcase, max_eq_left (div_nonneg hd0 (le_of_lt h225))]
    apply min_eq_right
    rw [le_div_iff₀ h225]
    push_neg at hcase
    linarith

/-- Witness for C5 amended at concrete inputs. -/
theorem C5_suppression_linear_in_sqdist_witness :
    (suppress_scores [(2 : ℝ)] [rgb_to_lab ((0, 0, 0) : Color)]
        (rgb_to_lab ((0, 0, 0) : Color))).getD 0 0 =
      ([(2 : ℝ)]).getD 0 0 *
        (if lab_sq_dist (([rgb_to_lab ((0, 0, 0) : Color)]).getD 0 ((0 : ℝ), (0 : ℝ), (0 : ℝ)))
            (rgb_to_lab ((0, 0, 0) : Color)) ≤ (15 : ℝ) ^ 2 then
          lab_sq_dist (([rgb_to_lab ((0, 0, 0) : Color)]).getD 0 ((0 : ℝ), (0 : ℝ), (0 : ℝ)))
            (rgb_to_lab ((0, 0, 0) : Color)) / (15 : ℝ) ^ 2
        else 1) :=
  C5_suppression_linear_in_sqdist [(2 : ℝ)] [rgb_to_lab ((0, 0, 0) : Color)]
    (rgb_to_lab ((0, 0, 0) : Color)) 0 (by decide) (by decide)

/- ------------------------------------------------------------------ -/
/- C3: unrecognized palette names.                                     -/
/- ------------------------------------------------------------------ -/

/-- C3 counterexample: the claim asserts that an unrecognized palette name is
surfaced as a caller-visible configuration error and in particular must not
silently return the image unchanged.  With the unrecognized name "Vaporwave"
the pipeline returns the input image exactly, with no error channel at all. -/
theorem C3_unrecognized_silently_ignored_cex :
    apply_palette_unified idExt c1_img "Vaporwave" none true "Standard" "Classic"
      0.4 0.3 0.3 false = c1_img := by
  simp +decide [apply_palette_unified, generate_target_palette, c1_img]

/-- C3 amended: an unrecognized palette name is silently ignored: with
auto_optimal off, apply_palette_unified returns an image equal to the input
(same dimensions, same RGB, same alpha) for every configuration and every set
of external collaborators; no error is surfaced.  (With auto_optimal on, the
bilateral pre-filter still runs before the dead-end dispatch.) -/
theorem C3_unrecognized_returns_input (ext : Ext) (img : Img) (paletteName : String)
    (customColors : Option (ℤ ⊕ List Color)) (dither : Bool)
    (extractPolicy mappingPolicy : String) (w_sat w_con w_rar : ℝ)
    (hname : paletteName ∉ recognized_palette_names) :
    apply_palette_unified ext img paletteName customColors dither extractPolicy mappingPolicy
      w_sat w_con w_rar false = img := by
  simp only [recognized_palette_names, List.mem_cons, List.not_mem_nil, or_false,
    not_or] at hname
  obtain ⟨h1, h2, h3, h4, h5, h6, h7, h8⟩ := hname
  have hcu : ¬ (paletteName = "Custom_User" ∧ custom_truthy customColors = true) :=
    fun hand => h5 hand.1
  have hgen : generate_target_palette paletteName customColors = (none, false) := by
    unfold generate_target_palette
    simp only [if_neg h2, if_neg h3, if_neg h4, if_neg hcu, if_neg h6]
    simp
  unfold apply_palette_unified
  rw [if_neg h1]
  simp only [if_neg h8, hgen, if_neg h7, if_neg h6]
  simp [list_zip_fst_snd]

/-- Witness for C3 amended at a concrete unrecognized name and image. -/
theorem C3_unrecognized_returns_input_witness :
    apply_palette_unified idExt c1_img "Triad" none true "Standard" "Classic"
      0.4 0.3 0.3 false = c1_img :=
  C3_unrecognized_returns_input idExt c1_img "Triad" none true "Standard" "Classic"
    0.4 0.3 0.3 (by decide)

/- ------------------------------------------------------------------ -/
/- Facts about the aesthetic extractor.                                -/
/- ------------------------------------------------------------------ -/

theorem foldr_max_nonneg (l : List ℚ) : 0 ≤ l.foldr max 0 := by
  induction l with
  | nil => exact le_refl 0
  | cons a rest ih => exact le_trans ih (le_max_right a _)

theorem satOf_nonneg (p : ℚ × ℚ × ℚ) : 0 ≤ satOf p := by
  unfold satOf qmax3 qmin3
  have h1 : min p.1 (min p.2.1 p.2.2) ≤ p.1 := min_le_left _ _
  have h2 : p.1 ≤ max p.1 (max p.2.1 p.2.2) := le_max_left _ _
  linarith

theorem contrastOf_nonneg (p : ℚ × ℚ × ℚ) : 0 ≤ contrastOf p :=
  mul_nonneg (abs_nonneg _) (by norm_num)

theorem aesthetic_scores_length (w_sat w_con w_rar : ℝ) (pixels : List (ℚ × ℚ × ℚ)) :
    (aesthetic_scores w_sat w_con w_rar pixels).length = pixels.length := by
  unfold aesthetic_scores
  simp [List.length_zipWith]

theorem aesthetic_scores_pos (pixels : List (ℚ × ℚ × ℚ)) (i : ℕ) (hi : i < pixels.length) :
    0 < (aesthetic_scores 0.4 0.3 0.3 pixels).getD i 0 := by
  unfold aesthetic_scores
  dsimp only
  set hues := pixels.map hueOf with hh
  set rawRar := hues.map (fun x => (1 : ℚ) / (hueHist hues (bucketOf x) + 1)) with hr
  set maxRar := rawRar.foldr max 0 with hm
  have hrlen : rawRar.length = pixels.length := by rw [hr, hh]; simp
  have hz : i < (List.zipWith
      (fun p rr => ((satOf p : ℚ) : ℝ) * 0.4 + ((contrastOf p : ℚ) : ℝ) * 0.3 +
        (((rr / (maxRar + 1 / 1000000)) : ℚ) : ℝ) * 0.3) pixels rawRar).length := by
    rw [List.length_zipWith, hrlen]
    exact lt_min hi hi
  rw [List.getD_eq_getElem?_getD, List.getElem?_eq_getElem hz, Option.getD_some,
    List.getElem_zipWith]
  have hi2 : i < rawRar.length := by rw [hrlen]; exact hi
  have hrrmem : ∀ x ∈ rawRar, (0 : ℚ) < x := by
    intro x hx
    rw [hr] at hx
    rcases List.mem_map.mp hx with ⟨y, _, rfl⟩
    apply one_div_pos.mpr
    positivity
  have hrrpos : (0 : ℚ) < rawRar[i] := hrrmem _ (List.getElem_mem hi2)
  have hden : (0 : ℚ) < maxRar + 1 / 1000000 := by
    have h0 : (0 : ℚ) ≤ maxRar := by rw [hm]; exact foldr_max_nonneg rawRar
    linarith
  have h1 : (0 : ℝ) ≤ ((satOf pixels[i] : ℚ) : ℝ) := by
    exact_mod_cast satOf_nonneg pixels[i]
  have h2 : (0 : ℝ) ≤ ((contrastOf pixels[i] : ℚ) : ℝ) := by
    exact_mod_cast contrastOf_nonneg pixels[i]
  have h3 : (0 : ℝ) < ((rawRar[i] / (maxRar + 1 / 1000000) : ℚ) : ℝ) := by
    exact_mod_cast div_pos hrrpos hden
  nlinarith

theorem aesthetic_select_length_le (labs : List Lab) :
    ∀ (n : ℕ) (scores : List ℝ) (acc : List ℕ),
      (aesthetic_select labs n scores acc).length ≤ n + acc.length := by
  intro n
  induction n with
  | zero => intro scores acc; simp [aesthetic_select]
  | succ n ih =>
    intro scores acc
    rw [aesthetic_select]
    by_cases hb : scores.getD (argmax_idx scores) 0 ≤ 0
    · rw [if_pos hb]
      simp
    · rw [if_neg hb]
      have := ih (suppress_scores scores labs (labs.getD (argmax_idx scores) (0, 0, 0)))
        (argmax_idx scores :: acc)
      simp only [List.length_cons] at this
      omega

theorem aesthetic_select_one (labs : List Lab) (scores : List ℝ)
    (hpos : 0 < scores.getD (argmax_idx scores) 0) :
    aesthetic_select labs 1 scores [] = [argmax_idx scores] := by
  rw [aesthetic_select]
  rw [if_neg (not_le.mpr hpos)]
  rfl

/-- The greedy loop of the aesthetic extractor runs range(color_count) times:
a zero or negative count yields an empty palette (no clamping). -/
theorem extract_aesthetic_nonpos (ext : Ext) (img : RgbImg) (count : ℤ) (hc : count ≤ 0)
    (w_sat w_con w_rar : ℝ) :
    extract_aesthetic_palette ext img count w_sat w_con w_rar = [] := by
  unfold extract_aesthetic_palette
  rw [Int.toNat_of_nonpos hc]
  rfl

theorem extract_aesthetic_one (ext : Ext) (img : RgbImg)
    (hne : (analysis_image ext img).px ≠ []) :
    (extract_aesthetic_palette ext img 1 0.4 0.3 0.3).length = 1 := by
  unfold extract_aesthetic_palette
  dsimp only
  rw [show ((1 : ℤ)).toNat = 1 from rfl]
  set pixels := (analysis_image ext img).px.map normPx with hpx
  set labs := pixels.map (fun p => rgb_to_lab_core ((p.1 : ℝ), (p.2.1 : ℝ), (p.2.2 : ℝ)))
    with hlabs
  set scores := aesthetic_scores 0.4 0.3 0.3 pixels with hsc
  have hplen : 0 < pixels.length := by
    rw [hpx, List.length_map]
    exact List.length_pos_of_ne_nil hne
  have hslen : scores.length = pixels.length := aesthetic_scores_length _ _ _ _
  have hsnil : scores ≠ [] := by
    intro h0
    rw [h0] at hslen
    simp at hslen
    omega
  have hlt : argmax_idx scores < pixels.length := by
    rw [← hslen]
    exact argmax_idx_lt_length scores hsnil
  have hpos : 0 < scores.getD (argmax_idx scores) 0 := by
    rw [hsc]
    exact aesthetic_scores_pos pixels (argmax_idx scores) hlt
  rw [aesthetic_select_one labs scores hpos]
  rfl

/- ------------------------------------------------------------------ -/
/- Facts about the geometric extractor.                                -/
/- ------------------------------------------------------------------ -/

theorem geometric_fill_stop (k : ℤ) (pal : List Color) (cands : List Color)
    (h : k ≤ (pal.length : ℤ)) : geometric_fill k pal cands = pal := by
  cases cands with
  | nil => rfl
  | cons c rest => rw [geometric_fill, if_pos h]

theorem geometric_fill_length_le (k : ℤ) :
    ∀ (cands pal : List Color), (pal.length : ℤ) ≤ k →
      ((geometric_fill k pal cands).length : ℤ) ≤ k := by
  intro cands
  induction cands with
  | nil => intro pal h; exact h
  | cons c rest ih =>
    intro pal h
    rw [geometric_fill]
    by_cases hk : k ≤ (pal.length : ℤ)
    · rw [if_pos hk]; exact h
    · rw [if_neg hk]
      by_cases hd : ∀ u ∈ pal, (20 : ℝ) ^ 2 < lab_sq_dist (rgb_to_lab u) (rgb_to_lab c)
      · rw [if_pos hd]
        apply ih
        rw [List.length_append]
        push_neg at hk
        simp only [List.length_cons, List.length_nil]
        omega
      · rw [if_neg hd]
        exact ih pal h

theorem geometric_fill_forall {P : Color → Prop} (k : ℤ) :
    ∀ (cands pal : List Color), (∀ c ∈ pal, P c) → (∀ c ∈ cands, P c) →
      ∀ c ∈ geometric_fill k pal cands, P c := by
  intro cands
  induction cands with
  | nil => intro pal hp _ c hc; exact hp c hc
  | cons a rest ih =>
    intro pal hp hc c hmem
    rw [geometric_fill] at hmem
    by_cases hk : k ≤ (pal.length : ℤ)
    · rw [if_pos hk] at hmem; exact hp c hmem
    · rw [if_neg hk] at hmem
      by_cases hd : ∀ u ∈ pal, (20 : ℝ) ^ 2 < lab_sq_dist (rgb_to_lab u) (rgb_to_lab a)
      · rw [if_pos hd] at hmem
        refine ih (pal ++ [a]) ?_ (fun x hx => hc x (List.mem_cons_of_mem a hx)) c hmem
        intro x hx
        rcases List.mem_append.mp hx with h1 | h1
        · exact hp x h1
        · rw [List.mem_singleton.mp h1]
          exact hc a (List.mem_cons_self a rest)
      · rw [if_neg hd] at hmem
        exact ih pal hp (fun x hx => hc x (List.mem_cons_of_mem a hx)) c hmem

theorem list_getD_default {α : Type} (l : List α) (n : ℕ) (d : α) (h : l.length ≤ n) :
    l.getD n d = d := by
  rw [List.getD_eq_getElem?_getD, List.getElem?_eq_none h]
  rfl

theorem getD_valid (l : List Color) (h : ∀ c ∈ l, validColor c) (n : ℕ) :
    validColor (l.getD n ((0, 0, 0) : Color)) := by
  by_cases hn : n < l.length
  · exact h _ (list_getD_mem l n _ hn)
  · rw [list_getD_default l n _ (by omega)]
    decide

theorem extreme_points_valid (pxs : List Color) (h : ∀ c ∈ pxs, validColor c) :
    ∀ c ∈ extreme_points pxs, validColor c := by
  intro c hc
  unfold extreme_points at hc
  simp only [List.mem_cons, List.not_mem_nil, or_false] at hc
  rcases hc with rfl | rfl | rfl | rfl | rfl | rfl | rfl | rfl | rfl <;>
    exact getD_valid pxs h _

theorem dedup_extremes_forall {P : Color → Prop} (l : List Color) (h : ∀ c ∈ l, P c) :
    ∀ c ∈ dedup_extremes l, P c := by
  unfold dedup_extremes
  suffices hgen : ∀ (l2 : List Color) (acc : List Color), (∀ c ∈ acc, P c) →
      (∀ c ∈ l2, P c) →
      ∀ c ∈ l2.foldl (fun acc e => if e ∈ acc then acc else acc ++ [e]) acc, P c by
    exact hgen l [] (by intro c hc; cases hc) h
  intro l2
  induction l2 with
  | nil => intro acc hacc _ c hc; exact hacc c hc
  | cons a rest ih =>
    intro acc hacc hl c hc
    rw [List.foldl_cons] at hc
    by_cases hmem : a ∈ acc
    · rw [if_pos hmem] at hc
      exact ih acc hacc (fun x hx => hl x (List.mem_cons_of_mem a hx)) c hc
    · rw [if_neg hmem] at hc
      refine ih (acc ++ [a]) ?_ (fun x hx => hl x (List.mem_cons_of_mem a hx)) c hc
      intro x hx
      rcases List.mem_append.mp hx with h1 | h1
      · exact hacc x h1
      · rw [List.mem_singleton.mp h1]
        exact hl a (List.mem_cons_self a rest)

theorem py_take_subset {α : Type} (n : ℤ) (l : List α) : ∀ x ∈ py_take n l, x ∈ l := by
  intro x hx
  unfold py_take at hx
  by_cases h : 0 ≤ n
  · rw [if_pos h] at hx; exact List.mem_of_mem_take hx
  · rw [if_neg h] at hx; exact List.mem_of_mem_take hx

theorem insert_desc_mem {α : Type} (key : α → ℕ) (x : α) :
    ∀ (l : List α) (y : α), y ∈ insert_desc key x l → y = x ∨ y ∈ l := by
  intro l
  induction l with
  | nil =>
    intro y hy
    rw [insert_desc] at hy
    exact Or.inl (List.mem_singleton.mp hy)
  | cons a rest ih =>
    intro y hy
    rw [insert_desc] at hy
    by_cases hk : key a < key x
    · rw [if_pos hk] at hy
      rcases List.mem_cons.mp hy with h1 | h1
      · exact Or.inl h1
      · exact Or.inr h1
    · rw [if_neg hk] at hy
      rcases List.mem_cons.mp hy with h1 | h1
      · exact Or.inr (by rw [h1]; exact List.mem_cons_self a rest)
      · rcases ih y h1 with h2 | h2
        · exact Or.inl h2
        · exact Or.inr (List.mem_cons_of_mem a h2)

theorem sort_desc_mem {α : Type} (key : α → ℕ) :
    ∀ (l : List α) (y : α), y ∈ sort_desc key l → y ∈ l := by
  intro l
  induction l with
  | nil => intro y hy; exact hy
  | cons a rest ih =>
    intro y hy
    rw [sort_desc] at hy
    rcases insert_desc_mem key a (sort_desc key rest) y hy with h1 | h1
    · rw [h1]; exact List.mem_cons_self a rest
    · exact List.mem_cons_of_mem a (ih y h1)

theorem insert_desc_length {α : Type} (key : α → ℕ) (x : α) :
    ∀ l : List α, (insert_desc key x l).length = l.length + 1 := by
  intro l
  induction l with
  | nil => rfl
  | cons a rest ih =>
    rw [insert_desc]
    by_cases hk : key a < key x
    · rw [if_pos hk]; rfl
    · rw [if_neg hk]
      simp [ih]

theorem sort_desc_length {α : Type} (key : α → ℕ) :
    ∀ l : List α, (sort_desc key l).length = l.length := by
  intro l
  induction l with
  | nil => rfl
  | cons a rest ih =>
    rw [sort_desc, insert_desc_length, ih]
    rfl

theorem voxel_candidates_valid (pxs : List Color) :
    ∀ c ∈ voxel_candidates pxs, validColor c := by
  intro c hc
  unfold voxel_candidates at hc
  rcases List.mem_map.mp hc with ⟨t, ht, rfl⟩
  have ht2 := sort_desc_mem (voxel_count pxs) _ t ht
  unfold voxel_coords at ht2
  have ht3 := List.mem_filter.mp ht2
  rcases List.mem_flatMap.mp ht3.1 with ⟨i, hi, hrest⟩
  rcases List.mem_flatMap.mp hrest with ⟨j, hj, hk⟩
  rcases List.mem_map.mp hk with ⟨k, hkr, rfl⟩
  have hi16 : i < 16 := List.mem_range.mp hi
  have hj16 : j < 16 := List.mem_range.mp hj
  have hk16 : k < 16 := List.mem_range.mp hkr
  exact ⟨by show i * 16 + 8 ≤ 255; omega, by show j * 16 + 8 ≤ 255; omega,
    by show k * 16 + 8 ≤ 255; omega⟩

theorem voxel_coords_ne_nil (pxs : List Color) (h : pxs ≠ []) : voxel_coords pxs ≠ [] := by
  obtain ⟨p, rest, rfl⟩ := List.exists_cons_of_ne_nil h
  apply List.ne_nil_of_mem
    (a := (voxel_bin p.1, voxel_bin p.2.1, voxel_bin p.2.2))
  unfold voxel_coords
  rw [List.mem_filter]
  constructor
  · rw [List.mem_flatMap]
    refine ⟨voxel_bin p.1, List.mem_range.mpr ?_, ?_⟩
    · unfold voxel_bin; omega
    · rw [List.mem_flatMap]
      refine ⟨voxel_bin p.2.1, List.mem_range.mpr ?_, ?_⟩
      · unfold voxel_bin; omega
      · rw [List.mem_map]
        refine ⟨voxel_bin p.2.2, List.mem_range.mpr ?_, rfl⟩
        unfold voxel_bin; omega
  · rw [decide_eq_true_iff]
    apply List.countP_pos_iff.mpr
    refine ⟨p, List.mem_cons_self p rest, ?_⟩
    simp

theorem voxel_candidates_ne_nil (pxs : List Color) (h : pxs ≠ []) :
    voxel_candidates pxs ≠ [] := by
  unfold voxel_candidates
  intro h0
  have hlen := congrArg List.length h0
  rw [List.length_map, sort_desc_length, List.length_nil] at hlen
  exact voxel_coords_ne_nil pxs h (List.length_eq_zero.mp hlen)

theorem extract_geometric_zero (ext : Ext) (img : RgbImg) :
    extract_geometric_palette ext img 0 = [] := by
  unfold extract_geometric_palette
  dsimp only
  rw [show ((0 : ℤ).fdiv 2) = 0 from rfl]
  rw [show py_take (0 : ℤ) (dedup_extremes (extreme_points (analysis_image ext img).px)) =
    [] from by simp [py_take]]
  exact geometric_fill_stop 0 [] _ (by simp)

theorem extract_geometric_one (ext : Ext) (img : RgbImg)
    (hne : (analysis_image ext img).px ≠ []) :
    (extract_geometric_palette ext img 1).length = 1 := by
  unfold extract_geometric_palette
  dsimp only
  rw [show ((1 : ℤ).fdiv 2) = 0 from rfl]
  rw [show py_take (0 : ℤ) (dedup_extremes (extreme_points (analysis_image ext img).px)) =
    [] from by simp [py_take]]
  obtain ⟨c, rest, hcons⟩ :=
    List.exists_cons_of_ne_nil (voxel_candidates_ne_nil _ hne)
  rw [hcons, geometric_fill]
  rw [if_neg (by simp), if_pos (by intro u hu; cases hu)]
  rw [show ([] : List Color) ++ [c] = [c] from rfl]
  rw [geometric_fill_stop 1 [c] rest (by simp)]
  rfl

theorem extract_aesthetic_length_le (ext : Ext) (img : RgbImg) (count : ℤ)
    (w_sat w_con w_rar : ℝ) :
    (extract_aesthetic_palette ext img count w_sat w_con w_rar).length ≤ count.toNat := by
  unfold extract_aesthetic_palette
  dsimp only
  rw [List.length_map]
  simpa using aesthetic_select_length_le _ count.toNat _ ([] : List ℕ)

theorem denorm_normPx (v : Color) :
    ((Int.toNat ⌊(normPx v).1 * 255⌋, Int.toNat ⌊(normPx v).2.1 * 255⌋,
      Int.toNat ⌊(normPx v).2.2 * 255⌋) : Color) = v := by
  unfold normPx
  dsimp only
  rw [div_mul_cancel₀ _ (by norm_num : (255 : ℚ) ≠ 0),
    div_mul_cancel₀ _ (by norm_num : (255 : ℚ) ≠ 0),
    div_mul_cancel₀ _ (by norm_num : (255 : ℚ) ≠ 0)]
  simp

theorem extract_aesthetic_valid (ext : Ext) (img : RgbImg) (count : ℤ)
    (w_sat w_con w_rar : ℝ)
    (hwf : ∀ c ∈ (analysis_image ext img).px, validColor c) :
    ∀ c ∈ extract_aesthetic_palette ext img count w_sat w_con w_rar, validColor c := by
  intro c hc
  unfold extract_aesthetic_palette at hc
  dsimp only at hc
  rcases List.mem_map.mp hc with ⟨i, _, rfl⟩
  by_cases hi : i < ((analysis_image ext img).px.map normPx).length
  · have hi2 : i < (analysis_image ext img).px.length := by
      rw [List.length_map] at hi
      exact hi
    have hget : ((analysis_image ext img).px.map normPx).getD i (0, 0, 0) =
        normPx (analysis_image ext img).px[i] := by
      rw [List.getD_eq_getElem?_getD, List.getElem?_eq_getElem hi, Option.getD_some,
        List.getElem_map]
    rw [hget, denorm_normPx]
    exact hwf _ (List.getElem_mem hi2)
  · rw [list_getD_default _ _ _ (by omega)]
    norm_num [validColor]

theorem extract_geometric_length_le (ext : Ext) (img : RgbImg) (count : ℤ) (hc : 0 ≤ count) :
    ((extract_geometric_palette ext img count).length : ℤ) ≤ count := by
  unfold extract_geometric_palette
  dsimp only
  apply geometric_fill_length_le
  have hfd0 : 0 ≤ count.fdiv 2 := Int.fdiv_nonneg hc (by norm_num)
  unfold py_take
  rw [if_pos hfd0]
  have h1 : (List.take (count.fdiv 2).toNat
      (dedup_extremes (extreme_points (analysis_image ext img).px))).length ≤
      (count.fdiv 2).toNat := by
    rw [List.length_take]
    exact min_le_left _ _
  have h2 : ((count.fdiv 2).toNat : ℤ) = count.fdiv 2 := Int.toNat_of_nonneg hfd0
  have h3 : count.fdiv 2 ≤ count := by
    rw [Int.fdiv_eq_ediv _ (by norm_num)]
    omega
  calc ((List.take (count.fdiv 2).toNat
        (dedup_extremes (extreme_points (analysis_image ext img).px))).length : ℤ)
      ≤ ((count.fdiv 2).toNat : ℤ) := by exact_mod_cast h1
    _ = count.fdiv 2 := h2
    _ ≤ count := h3

theorem extract_geometric_valid (ext : Ext) (img : RgbImg) (count : ℤ)
    (hwf : ∀ c ∈ (analysis_image ext img).px, validColor c) :
    ∀ c ∈ extract_geometric_palette ext img count, validColor c := by
  unfold extract_geometric_palette
  dsimp only
  apply geometric_fill_forall
  · intro c hc
    exact dedup_extremes_forall _ (extreme_points_valid _ hwf) c (py_take_subset _ _ c hc)
  · exact voxel_candidates_valid _

/- ------------------------------------------------------------------ -/
/- C6: degenerate color counts.                                        -/
/- ------------------------------------------------------------------ -/

/-- C6 counterexample: the claim asserts that a degenerate count (zero or
negative) is clamped to 1 so that at least one color is returned; extracting
with count 0 from a concrete non-empty image returns the empty palette. -/
theorem C6_count_zero_returns_empty_cex :
    (extract_aesthetic_palette idExt c6_img 0 0.4 0.3 0.3).length = 0 ∧
    ¬ 1 ≤ (extract_aesthetic_palette idExt c6_img 0 0.4 0.3 0.3).length := by
  have h := extract_aesthetic_nonpos idExt c6_img 0 (le_refl 0) 0.4 0.3 0.3
  exact ⟨by rw [h]; rfl, by rw [h]; simp⟩

/-- C6 amended: degenerate counts are not clamped: for a non-empty analysis
image, count 1 yields exactly one color from both extractors (and neither
throws — both are total functions of the embedding), while count ≤ 0 yields
the empty palette from the aesthetic extractor and count 0 the empty palette
from the geometric extractor. -/
theorem C6_count_one_exact (ext : Ext) (img : RgbImg)
    (hne : (analysis_image ext img).px ≠ []) :
    (extract_aesthetic_palette ext img 1 0.4 0.3 0.3).length = 1 ∧
    (extract_geometric_palette ext img 1).length = 1 ∧
    (∀ count : ℤ, count ≤ 0 → extract_aesthetic_palette ext img count 0.4 0.3 0.3 = []) ∧
    extract_geometric_palette ext img 0 = [] :=
  ⟨extract_aesthetic_one ext img hne, extract_geometric_one ext img hne,
    fun count hcount => extract_aesthetic_nonpos ext img count hcount 0.4 0.3 0.3,
    extract_geometric_zero ext img⟩

/-- Witness for C6 amended on a concrete 1 x 1 image. -/
theorem C6_count_one_exact_witness :
    (extract_aesthetic_palette idExt c6_img 1 0.4 0.3 0.3).length = 1 ∧
    (extract_geometric_palette idExt c6_img 1).length = 1 ∧
    (∀ count : ℤ, count ≤ 0 → extract_aesthetic_palette idExt c6_img count 0.4 0.3 0.3 = []) ∧
    extract_geometric_palette idExt c6_img 0 = [] :=
  C6_count_one_exact idExt c6_img (by decide)

/- ------------------------------------------------------------------ -/
/- C7: palette size and entry range.                                   -/
/- ------------------------------------------------------------------ -/

/-- C7 counterexample: the claim quantifies over every requested color count,
but for the negative count -1 (in scope per the degenerate-input taxonomy of
the spec) the aesthetic extractor returns the empty palette and 0 ≤ -1 fails,
so len(palette) ≤ requested_count does not hold. -/
theorem C7_negative_count_cex :
    extract_aesthetic_palette idExt c6_img (-1) 0.4 0.3 0.3 = [] ∧
    ¬ ((extract_aesthetic_palette idExt c6_img (-1) 0.4 0.3 0.3).length : ℤ) ≤ (-1 : ℤ) := by
  have h := extract_aesthetic_nonpos idExt c6_img (-1) (by norm_num) 0.4 0.3 0.3
  refine ⟨h, ?_⟩
  rw [h]
  simp

/-- C7 amended: for every nonnegative requested count both extractors return at
most count colors, and — for a valid analysis image (externally resized copies
included via the hypothesis) — every returned entry is an (R,G,B) triple of
naturals bounded by 255, for every requested count. -/
theorem C7_length_and_range (ext : Ext) (img : RgbImg) (count : ℤ)
    (w_sat w_con w_rar : ℝ)
    (hwf : ∀ c ∈ (analysis_image ext img).px, validColor c) :
    (0 ≤ count →
      ((extract_aesthetic_palette ext img count w_sat w_con w_rar).length : ℤ) ≤ count ∧
      ((extract_geometric_palette ext img count).length : ℤ) ≤ count) ∧
    (∀ c ∈ extract_aesthetic_palette ext img count w_sat w_con w_rar, validColor c) ∧
    (∀ c ∈ extract_geometric_palette ext img count, validColor c) := by
  refine ⟨fun hc => ⟨?_, extract_geometric_length_le ext img count hc⟩,
    extract_aesthetic_valid ext img count w_sat w_con w_rar hwf,
    extract_geometric_valid ext img count hwf⟩
  have h1 := extract_aesthetic_length_le ext img count w_sat w_con w_rar
  calc ((extract_aesthetic_palette ext img count w_sat w_con w_rar).length : ℤ)
      ≤ (count.toNat : ℤ) := by exact_mod_cast h1
    _ = count := Int.toNat_of_nonneg hc

/-- Witness for C7 amended on a concrete image and count. -/
theorem C7_length_and_range_witness :
    (0 ≤ (3 : ℤ) →
      ((extract_aesthetic_palette idExt c6_img 3 0.4 0.3 0.3).length : ℤ) ≤ 3 ∧
      ((extract_geometric_palette idExt c6_img 3).length : ℤ) ≤ 3) ∧
    (∀ c ∈ extract_aesthetic_palette idExt c6_img 3 0.4 0.3 0.3, validColor c) ∧
    (∀ c ∈ extract_geometric_palette idExt c6_img 3, validColor c) :=
  C7_length_and_range idExt c6_img 3 0.4 0.3 0.3 (by decide)

end Pixlato
